import Mathlib

/-!
Shallow embedding of the XML parser in src/src/parser.rs (sxd-document).

The repository ships only parser.rs under src/. Three collaborators it uses
are not in src/ and are therefore modelled from the spec (each such
definition carries a doc comment starting with "Modelled from the spec:"):
  * the peresil parse-outcome algebra (Point, Result, or_else, optional,
    zero_or_more, and the try_parse / try_partial_parse /
    try_resume_after_partial_failure macros), described in spec sections 3
    and 4.2 and in parser.rs's own module documentation (lines 18-36);
  * the lexical classifier (super::str's end_of_* functions), described in
    spec section 6;
  * the dom4 document builder, described in spec section 6.

Input is a list of characters; a peresil Point is represented by its
offset (the remaining slice is recovered by dropping that many characters
from the input, which is threaded through every function). Rust panics
(used for fatal semantic failures) are modelled by the Fatal error of an
Except monad. The mutable-reference sink (SaxHydrator) is modelled by
explicit state passing; state produced by a failing branch is kept, as a
Rust &mut sink keeps mutations made by abandoned branches.
-/

namespace Sxd

/-- Character list standing for a borrowed Rust string slice. -/
abbrev Str := List Char

/-- PrefixedName from parser.rs lines 75-79: optional namespace prefix and
local part. Field names avoid the word "prefix" for Lean-syntax reasons;
pfx is the source's prefix, localPart the source's local_part. -/
structure PrefixedName where
  pfx : Option Str
  localPart : Str
deriving DecidableEq, Repr

/-- Reference from parser.rs lines 87-92. -/
inductive Reference where
  | entityReference (name : Str)
  | decimalCharReference (digits : Str)
  | hexCharReference (digits : Str)
deriving DecidableEq, Repr

/-- AttributeValue from parser.rs lines 81-85. -/
inductive AttributeValue where
  | referenceAttributeValue (r : Reference)
  | literalAttributeValue (s : Str)
deriving DecidableEq, Repr

/-! ## Lexical classifier (super::str), modelled from the spec -/

/-- XML whitespace characters. -/
def isXmlSpace (c : Char) : Bool :=
  c = ' ' || c = '\t' || c = '\n' || c = '\r'

/-- Length of the longest run of characters satisfying p. -/
def takeRun (p : Char → Bool) (s : Str) : Nat :=
  (s.takeWhile p).length

/-- Length of a non-empty run satisfying p, none when the run is empty. -/
def runLen (p : Char → Bool) (s : Str) : Option Nat :=
  match takeRun p s with
  | 0 => none
  | n + 1 => some (n + 1)

/-- Modelled from the spec: length of the recognized whitespace run
(lexical classifier, spec section 6). -/
def endOfSpace (s : Str) : Option Nat := runLen isXmlSpace s

/-- Modelled from the spec: length of the recognized decimal-digit run. -/
def endOfDecimalChars (s : Str) : Option Nat := runLen Char.isDigit s

/-- Hexadecimal digit test. -/
def isHexChar (c : Char) : Bool :=
  c.isDigit || ('a' ≤ c && c ≤ 'f') || ('A' ≤ c && c ≤ 'F')

/-- Modelled from the spec: length of the recognized hex-digit run. -/
def endOfHexChars (s : Str) : Option Nat := runLen isHexChar s

/-- First character of an NCName (no-colon name). -/
def isNCNameStart (c : Char) : Bool := c.isAlpha || c = '_'

/-- Subsequent character of an NCName. -/
def isNCNameChar (c : Char) : Bool :=
  c.isAlphanum || c = '_' || c = '-' || c = '.'

/-- Modelled from the spec: length of the recognized NCName run. -/
def endOfNCName (s : Str) : Option Nat :=
  match s with
  | [] => none
  | c :: rest => if isNCNameStart c then some (1 + takeRun isNCNameChar rest) else none

/-- First character of an XML Name (an NCName start or a colon). -/
def isNameStart (c : Char) : Bool := isNCNameStart c || c = ':'

/-- Subsequent character of an XML Name. -/
def isNameChar (c : Char) : Bool := isNCNameChar c || c = ':'

/-- Modelled from the spec: length of the recognized Name run. -/
def endOfName (s : Str) : Option Nat :=
  match s with
  | [] => none
  | c :: rest => if isNameStart c then some (1 + takeRun isNameChar rest) else none

/-- Modelled from the spec: length of the recognized attribute-value run
under the given quote character (stops at the quote, at an ampersand, or
at a left angle bracket). -/
def endOfAttribute (quote : Char) (s : Str) : Option Nat :=
  runLen (fun c => !(c = quote || c = '&' || c = '<')) s

/-- Modelled from the spec: length of the recognized character-data run
(stops at a left angle bracket or at an ampersand). -/
def endOfCharData (s : Str) : Option Nat :=
  runLen (fun c => !(c = '<' || c = '&')) s

/-- Index of the first occurrence of stop in s, none when absent. -/
def findStop (stop : Str) : Str → Option Nat
  | [] => if stop = [] then some 0 else none
  | c :: rest =>
    if stop.isPrefixOf (c :: rest) then some 0
    else (findStop stop rest).map (· + 1)

/-- Non-zero variant of findStop: none also when the terminator is
immediately at the start (an empty body is not a run). -/
def findStopPos (stop : Str) (s : Str) : Option Nat :=
  match findStop stop s with
  | some 0 => none
  | some (n + 1) => some (n + 1)
  | none => none

/-- Modelled from the spec: length of the recognized CDATA body (the text
before the closing "]]>" terminator). -/
def endOfCdata (s : Str) : Option Nat := findStopPos ("]]>".data) s

/-- Modelled from the spec: length of the recognized comment body (the
text before the next "--"). -/
def endOfComment (s : Str) : Option Nat := findStopPos ("--".data) s

/-- Modelled from the spec: length of the recognized processing-instruction
value (the text before the closing "?>"). -/
def endOfPiValue (s : Str) : Option Nat := findStopPos ("?>".data) s

/-- Modelled from the spec: the start-tag open bracket, a "<" not followed
by "?", "!" or "/" (those introduce PIs, comments/CDATA and end tags). -/
def endOfStartTag (s : Str) : Option Nat :=
  match s with
  | '<' :: rest =>
    match rest with
    | [] => some 1
    | c :: _ => if c = '?' || c = '!' || c = '/' then none else some 1
  | _ => none

/-! ## Outcome algebra (peresil), modelled from the spec -/

/-- Modelled from the spec: the three-way parse outcome (spec section 3).
success carries the value and the next offset; stalled is the spec's
Partial (a prefix succeeded, then one step failed: value, failure offset,
resume offset); failure carries the failure offset. -/
inductive PResult (α : Type) where
  | success (val : α) (next : Nat)
  | stalled (val : α) (failPt : Nat) (next : Nat)
  | failure (failPt : Nat)
deriving DecidableEq, Repr

/-- Map over the value of an outcome. -/
def pmap (f : α → β) : PResult α → PResult β
  | .success v p => .success (f v) p
  | .stalled v fp p => .stalled (f v) fp p
  | .failure fp => .failure fp

/-- Modelled from the spec: consume up to a classifier-returned run length;
a missing run is a failure at the current offset (peresil consume_to). -/
def consumeTo (input : Str) (pt : Nat) : Option Nat → PResult Str
  | none => .failure pt
  | some n => .success ((input.drop pt).take n) (pt + n)

/-- Modelled from the spec: consume an exact literal or fail at the current
offset (peresil consume_literal). -/
def consumeLiteral (input : Str) (lit : Str) (pt : Nat) : PResult Unit :=
  if lit.isPrefixOf (input.drop pt) then .success () (pt + lit.length)
  else .failure pt

/-- Modelled from the spec: the try_parse! macro; a stalled outcome is cut
to its failure (never exercised by this grammar: every operand of
try_parse! yields success or failure only). -/
def tryParseP (r : PResult α) (k : α → Nat → PResult β) : PResult β :=
  match r with
  | .success v p => k v p
  | .stalled _ fp _ => .failure fp
  | .failure fp => .failure fp

/-- Modelled from the spec: the more interesting of a saved partial-failure
offset and a new failure offset is the greater one (parser.rs module docs
lines 28-30). -/
def combineFail (saved : Option Nat) (fp : Nat) : Nat :=
  match saved with
  | none => fp
  | some s => max s fp

/-- Modelled from the spec: the try_resume_after_partial_failure! macro;
on failure the saved partial-failure offset competes with the new failure
offset, greater offset wins. -/
def resumeP (saved : Option Nat) : PResult α → PResult α
  | .success v p => .success v p
  | .stalled v fp p => .stalled v (combineFail saved fp) p
  | .failure fp => .failure (combineFail saved fp)

/-- Modelled from the spec: the try_partial_parse! macro; a stalled outcome
continues from its resume offset with the failure offset saved. -/
def bindPartialP (r : PResult α) (k : α → Option Nat → Nat → PResult β) : PResult β :=
  match r with
  | .success v p => k v none p
  | .stalled v fp p => k v (some fp) p
  | .failure fp => .failure fp

/-- Modelled from the spec: alternation (peresil or_else); the right branch
runs only when the left fails, and of two failures the one with the
greater offset is reported (spec section 4.2). -/
def orElseP (r : PResult α) (alt : Unit → PResult α) : PResult α :=
  match r with
  | .failure fp =>
    match alt () with
    | .failure fp2 => .failure (max fp fp2)
    | other => other
  | other => other

/-- Modelled from the spec: optionality (peresil optional); failure resets
to the original offset with no value (spec section 4.2). -/
def optionalP (r : PResult α) (orig : Nat) : PResult (Option α) :=
  match r with
  | .success v p => .success (some v) p
  | .stalled v _ p => .success (some v) p
  | .failure _ => .success (none) orig

/-- Offset after an optional parse: the parse's next offset on success,
the original offset on failure. -/
def optNext (r : PResult α) (orig : Nat) : Nat :=
  match r with
  | .success _ p => p
  | .stalled _ _ p => p
  | .failure _ => orig

/-! ## Pure consumers (XmlParseExt / PrivateXmlParseExt, parser.rs 94-175) -/

/-- consume_space (parser.rs line 102). -/
def consumeSpace (input : Str) (pt : Nat) : PResult Str :=
  consumeTo input pt (endOfSpace (input.drop pt))

/-- consume_decimal_chars (parser.rs line 106). -/
def consumeDecimalChars (input : Str) (pt : Nat) : PResult Str :=
  consumeTo input pt (endOfDecimalChars (input.drop pt))

/-- consume_ncname (parser.rs line 110). -/
def consumeNCName (input : Str) (pt : Nat) : PResult Str :=
  consumeTo input pt (endOfNCName (input.drop pt))

/-- consume_attribute_value (parser.rs line 144). -/
def consumeAttributeValue (input : Str) (quote : Char) (pt : Nat) : PResult Str :=
  consumeTo input pt (endOfAttribute quote (input.drop pt))

/-- consume_name (parser.rs line 148). -/
def consumeName (input : Str) (pt : Nat) : PResult Str :=
  consumeTo input pt (endOfName (input.drop pt))

/-- consume_hex_chars (parser.rs line 152). -/
def consumeHexChars (input : Str) (pt : Nat) : PResult Str :=
  consumeTo input pt (endOfHexChars (input.drop pt))

/-- consume_char_data (parser.rs line 156). -/
def consumeCharData (input : Str) (pt : Nat) : PResult Str :=
  consumeTo input pt (endOfCharData (input.drop pt))

/-- consume_cdata (parser.rs line 160). -/
def consumeCdata (input : Str) (pt : Nat) : PResult Str :=
  consumeTo input pt (endOfCdata (input.drop pt))

/-- consume_comment (parser.rs line 164). -/
def consumeComment (input : Str) (pt : Nat) : PResult Str :=
  consumeTo input pt (endOfComment (input.drop pt))

/-- consume_pi_value (parser.rs line 168). -/
def consumePiValue (input : Str) (pt : Nat) : PResult Str :=
  consumeTo input pt (endOfPiValue (input.drop pt))

/-- consume_start_tag (parser.rs line 172). -/
def consumeStartTag (input : Str) (pt : Nat) : PResult Str :=
  consumeTo input pt (endOfStartTag (input.drop pt))

/-- consume_prefixed_name (parser.rs lines 114-129): an NCName, optionally
followed by a colon and a second NCName; the optional part resets to just
after the first NCName when it fails. -/
def consumePrefixedName (input : Str) (pt : Nat) : PResult PrefixedName :=
  tryParseP (consumeNCName input pt) fun pfx p =>
    match tryParseP (consumeLiteral input (":".data) p) (fun _ p2 => consumeNCName input p2) with
    | .success l p3 => .success ⟨some pfx, l⟩ p3
    | _ => .success ⟨none, pfx⟩ p

/-! ## Fatal semantic failures (Rust panics in parser.rs) -/

/-- The panics parser.rs can raise: mismatched end tag (line 468), a PI
target equal to "xml" (line 409), an unknown entity name (line 569), an
out-of-range character reference (lines 551-558, including a numeric
overflow at from_str_radix), an unresolved namespace prefix (lines 720 and
749), append with no open element (line 642), a missing staged element
(line 696) and a missing staged attribute (line 763). -/
inductive Fatal where
  | mismatchedTags
  | xmlPiTarget
  | unknownEntity (name : Str)
  | invalidCodepoint (code : Nat)
  | unknownNsPfx (pfx : Str)
  | noElementToAppend
  | noDeferredElement
  | noDeferredAttribute
deriving DecidableEq, Repr

/-- Computations that may abort with a fatal semantic failure. -/
abbrev M (α : Type) := Except Fatal α

deriving instance DecidableEq for Except

/-! ## Document builder (dom4), modelled from the spec -/

/-- Modelled from the spec: an attribute of a built element — resolved
namespace URI, local name, concatenated value and preferred prefix. -/
structure AttrData where
  nsUri : Option Str
  localName : Str
  value : Str
  preferredPfx : Option Str
deriving DecidableEq, Repr

/-- Modelled from the spec: a reference to a node owned by the document
builder, by kind and arena index. -/
inductive NodeRef where
  | elem (i : Nat)
  | text (i : Nat)
  | comment (i : Nat)
  | pi (i : Nat)
deriving DecidableEq, Repr

/-- Modelled from the spec: a built element — resolved name, preferred
prefix, prefix-to-URI registrations, attributes, children in document
order and the parent link used by namespace lookup. -/
structure ElemData where
  nsUri : Option Str
  localName : Str
  preferredPfx : Option Str
  pfxMappings : List (Str × Str)
  attrs : List AttrData
  children : List NodeRef
  parent : Option Nat
deriving DecidableEq, Repr

/-- Modelled from the spec: the document builder's arenas plus the
children of the root. -/
structure Doc where
  elements : List ElemData
  texts : List Str
  comments : List Str
  pis : List (Str × Option Str)
  rootChildren : List NodeRef
deriving DecidableEq, Repr

/-- The empty document a parse starts from. -/
def emptyDoc : Doc := ⟨[], [], [], [], []⟩

/-- Apply f to the element at index i. -/
def listUpd : List α → Nat → (α → α) → List α
  | [], _, _ => []
  | x :: xs, 0, f => f x :: xs
  | x :: xs, n + 1, f => x :: listUpd xs n f

/-- Update one element record of the document. -/
def updElem (d : Doc) (i : Nat) (f : ElemData → ElemData) : Doc :=
  { d with elements := listUpd d.elements i f }

/-- Modelled from the spec: create_element; returns the new handle. -/
def createElement (d : Doc) (nsUri : Option Str) (localName : Str) : Doc × Nat :=
  ({ d with elements := d.elements ++ [⟨nsUri, localName, none, [], [], [], none⟩] },
   d.elements.length)

/-- Modelled from the spec: create_text; returns the new handle. -/
def createText (d : Doc) (s : Str) : Doc × Nat :=
  ({ d with texts := d.texts ++ [s] }, d.texts.length)

/-- Modelled from the spec: create_comment; returns the new handle. -/
def createComment (d : Doc) (s : Str) : Doc × Nat :=
  ({ d with comments := d.comments ++ [s] }, d.comments.length)

/-- Modelled from the spec: create_processing_instruction. -/
def createPi (d : Doc) (target : Str) (value : Option Str) : Doc × Nat :=
  ({ d with pis := d.pis ++ [(target, value)] }, d.pis.length)

/-- Modelled from the spec: set_preferred_prefix on an element. -/
def setPreferredPfxElem (d : Doc) (i : Nat) (p : Option Str) : Doc :=
  updElem d i fun e => { e with preferredPfx := p }

/-- Modelled from the spec: register_prefix records one prefix-to-URI
binding on an element (bindings are write-once per element). -/
def registerPfx (d : Doc) (i : Nat) (p u : Str) : Doc :=
  updElem d i fun e => { e with pfxMappings := e.pfxMappings ++ [(p, u)] }

/-- Modelled from the spec: append_child; an element child records its
parent so that namespace lookup can walk ancestors. -/
def addChild (d : Doc) (p : Nat) (ref : NodeRef) : Doc :=
  let d := updElem d p fun e => { e with children := e.children ++ [ref] }
  match ref with
  | .elem i => updElem d i fun e => { e with parent := some p }
  | _ => d

/-- Replace the attribute with the same (namespace URI, local name), or
append a new one. -/
def setAttrList : List AttrData → Option Str → Str → Str → Option Str → List AttrData
  | [], ns, l, v, p => [⟨ns, l, v, p⟩]
  | a :: rest, ns, l, v, p =>
    if a.nsUri = ns ∧ a.localName = l then ⟨ns, l, v, p⟩ :: rest
    else a :: setAttrList rest ns l v p

/-- Modelled from the spec: set_attribute_value plus the subsequent
set_preferred_prefix on the returned attribute. -/
def setAttributeOn (d : Doc) (i : Nat) (nsUri : Option Str) (localName value : Str)
    (pfx : Option Str) : Doc :=
  updElem d i fun e => { e with attrs := setAttrList e.attrs nsUri localName value pfx }

/-- First binding for a key in an association list. -/
def assocLookup : List (Str × Str) → Str → Option Str
  | [], _ => none
  | (k, v) :: rest, key => if k = key then some v else assocLookup rest key

/-- Replace the binding for a key, or append it (HashMap::insert). -/
def insertReplace : List (Str × Str) → Str → Str → List (Str × Str)
  | [], k, v => [(k, v)]
  | (k0, v0) :: rest, k, v =>
    if k0 = k then (k, v) :: rest else (k0, v0) :: insertReplace rest k v

/-- Modelled from the spec: dom4's namespace_uri_for_prefix on an element
walks from the element through its ancestors, innermost binding first.
The fuel bounds the parent walk (the parent chain is acyclic by
construction). -/
def elemNsLookup (d : Doc) : Nat → Nat → Str → Option Str
  | 0, _, _ => none
  | fuel + 1, i, p =>
    match d.elements.get? i with
    | none => none
    | some e =>
      match assocLookup e.pfxMappings p with
      | some u => some u
      | none =>
        match e.parent with
        | none => none
        | some j => elemNsLookup d fuel j p

/-! ## SAX hydrator state and sink events (parser.rs 530-768) -/

/-- DeferredAttribute (parser.rs lines 619-622). -/
structure DeferredAttribute where
  name : PrefixedName
  values : List AttributeValue
deriving DecidableEq, Repr

/-- SaxHydrator state (parser.rs lines 624-629): the document being built,
the stack of in-construction elements (list head is the innermost, i.e.
the Vec's last element), the staged element name and the deferred
attributes (in Vec order). -/
structure HState where
  doc : Doc
  stack : List Nat
  element : Option PrefixedName
  attributes : List DeferredAttribute
deriving DecidableEq, Repr

/-- The hydrator's initial state (SaxHydrator::new). -/
def initialState : HState := ⟨emptyDoc, [], none, []⟩

/-- namespace_uri_for_prefix (parser.rs lines 645-647): delegate to the
innermost in-construction element, if any. -/
def nsUriForPfxStack (st : HState) (p : Str) : Option Str :=
  match st.stack with
  | [] => none
  | i :: _ => elemNsLookup st.doc (st.doc.elements.length + 1) i p

/-- append_to_either (parser.rs lines 653-660): append to the innermost
open element, or to the document root when no element is open. -/
def appendToEither (st : HState) (ref : NodeRef) : HState :=
  match st.stack with
  | [] => { st with doc := { st.doc with rootChildren := st.doc.rootChildren ++ [ref] } }
  | p :: _ => { st with doc := addChild st.doc p ref }

/-- element_start (parser.rs line 664): stage the element name. -/
def elementStartEvent (st : HState) (name : PrefixedName) : HState :=
  { st with element := some name }

/-- element_end (parser.rs line 668): pop the element stack (Vec::pop on
an empty stack is a no-op). -/
def elementEndEvent (st : HState) : HState :=
  { st with stack := st.stack.tail }

/-- comment sink event (parser.rs line 672). -/
def commentEvent (st : HState) (text : Str) : HState :=
  let (d, i) := createComment st.doc text
  appendToEither { st with doc := d } (.comment i)

/-- processing_instruction sink event (parser.rs line 677). -/
def piEvent (st : HState) (target : Str) (value : Option Str) : HState :=
  let (d, i) := createPi st.doc target value
  appendToEither { st with doc := d } (.pi i)

/-- append_text via current_element (parser.rs lines 641-651): fatal when
no element is open ("No element to append to"). -/
def textEvent (st : HState) (text : Str) : M HState :=
  match st.stack with
  | [] => .error Fatal.noElementToAppend
  | p :: _ =>
    let (d, i) := createText st.doc text
    .ok { st with doc := addChild d p (.text i) }

/-- attributes_start (parser.rs line 692): no effect. -/
def attributesStartEvent (st : HState) : HState := st

/-- attribute_start (parser.rs line 757): push a fresh deferred
attribute. -/
def attributeStartEvent (st : HState) (name : PrefixedName) : HState :=
  { st with attributes := st.attributes ++ [⟨name, []⟩] }

/-- Append a value fragment to the last deferred attribute, none when
there is no deferred attribute. -/
def pushAttrValue : List DeferredAttribute → AttributeValue → Option (List DeferredAttribute)
  | [], _ => none
  | [a], v => some [⟨a.name, a.values ++ [v]⟩]
  | a :: b :: rest, v => (pushAttrValue (b :: rest) v).map (a :: ·)

/-- attribute_value (parser.rs line 762): push onto the last deferred
attribute; the unwrap on a missing attribute is fatal. -/
def attributeValueEvent (st : HState) (v : AttributeValue) : M HState :=
  match pushAttrValue st.attributes v with
  | none => .error Fatal.noDeferredAttribute
  | some l => .ok { st with attributes := l }

/-- attribute_end (parser.rs line 766): no effect. -/
def attributeEndEvent (st : HState) (_name : PrefixedName) : HState := st

/-! ## Reference decoding (parser.rs 545-574) -/

/-- Numeric value of a (decimal or hex) digit character. -/
def digitVal (c : Char) : Nat :=
  if c.isDigit then c.toNat - '0'.toNat
  else if 'a' ≤ c ∧ c ≤ 'f' then c.toNat - 'a'.toNat + 10
  else if 'A' ≤ c ∧ c ≤ 'F' then c.toNat - 'A'.toNat + 10
  else 0

/-- Value of a digit string in the given base (from_str_radix on the digit
runs produced by the grammar). -/
def digitsVal (base : Nat) (ds : Str) : Nat :=
  ds.foldl (fun n c => n * base + digitVal c) 0

/-- A scalar value char::from_u32 accepts: below the surrogate range, or
above it and below 0x110000. -/
def validCodepoint (n : Nat) : Prop :=
  n < 0xd800 ∨ (0xdfff < n ∧ n < 0x110000)

instance (n : Nat) : Decidable (validCodepoint n) := by
  unfold validCodepoint; infer_instance

/-- decode_reference (parser.rs lines 545-574), with the callback
argument replaced by returning the decoded text: the five predefined
entities decode to their characters and any other entity name is fatal;
numeric references are read in base 10 or 16 and mapped through
char::from_u32, an out-of-range code point being fatal (a u32 overflow of
from_str_radix, also a panic in the source, is folded into the same fatal
code-point error). -/
def decodeReference : Reference → M Str
  | .decimalCharReference d =>
    let code := digitsVal 10 d
    if validCodepoint code then .ok [Char.ofNat code]
    else .error (Fatal.invalidCodepoint code)
  | .hexCharReference h =>
    let code := digitsVal 16 h
    if validCodepoint code then .ok [Char.ofNat code]
    else .error (Fatal.invalidCodepoint code)
  | .entityReference e =>
    if e = "amp".data then .ok "&".data
    else if e = "lt".data then .ok "<".data
    else if e = "gt".data then .ok ">".data
    else if e = "apos".data then .ok "'".data
    else if e = "quot".data then .ok "\"".data
    else .error (Fatal.unknownEntity e)

/-- reference sink event (parser.rs line 687): decode, then append as
text. -/
def referenceEvent (st : HState) (r : Reference) : M HState :=
  match decodeReference r with
  | .error e => .error e
  | .ok s => textEvent st s

/-- AttributeValueBuilder::ingest (parser.rs lines 593-600): concatenate
the fragments onto the accumulator, decoding references. -/
def ingestAttrValues : List AttributeValue → Str → M Str
  | [], acc => .ok acc
  | v :: rest, acc =>
    match v with
    | .literalAttributeValue s => ingestAttrValues rest (acc ++ s)
    | .referenceAttributeValue r =>
      match decodeReference r with
      | .error e => .error e
      | .ok s => ingestAttrValues rest (acc ++ s)

/-- AttributeValueBuilder::convert (parser.rs lines 581-585). -/
def convertAttrValues (vs : List AttributeValue) : M Str :=
  ingestAttrValues vs []

/-- The prefix-to-URI mapping built from the namespace-declaration
attributes (parser.rs lines 704-709): the local part becomes the declared
prefix, the concatenated reference-decoded value becomes the URI, later
declarations of the same prefix replacing earlier ones. -/
def buildMappings : List DeferredAttribute → List (Str × Str) → M (List (Str × Str))
  | [], m => .ok m
  | ns :: rest, m =>
    match convertAttrValues ns.values with
    | .error e => .error e
    | .ok value => buildMappings rest (insertReplace m ns.name.localPart value)

/-- The prefix resolution used for the element's own name and for each
ordinary attribute (parser.rs lines 712-713 and 741-742): this element's
freshly built mapping first, then the stack of enclosing in-construction
elements. -/
def resolvePfx (mappings : List (Str × Str)) (st : HState) (p : Str) : Option Str :=
  match assocLookup mappings p with
  | some u => some u
  | none => nsUriForPfxStack st p

/-- The ordinary-attribute loop of attributes_end (parser.rs lines
735-754): concatenate each attribute's fragments and resolve its prefix
the same way as the element's, an unresolved prefix being fatal. -/
def setOrdinaryAttrs (mappings : List (Str × Str)) (elemIdx : Nat) :
    List DeferredAttribute → HState → M HState
  | [], st => .ok st
  | attr :: rest, st =>
    match convertAttrValues attr.values with
    | .error e => .error e
    | .ok value =>
      match attr.name.pfx with
      | some p =>
        match resolvePfx mappings st p with
        | some u =>
          setOrdinaryAttrs mappings elemIdx rest
            { st with doc := setAttributeOn st.doc elemIdx (some u) attr.name.localPart value (some p) }
        | none => .error (Fatal.unknownNsPfx p)
      | none =>
        setOrdinaryAttrs mappings elemIdx rest
          { st with doc := setAttributeOn st.doc elemIdx none attr.name.localPart value none }

/-- The tail of attributes_end after the element has been created
(parser.rs lines 726-754): register the new prefix mappings on it, append
it to its parent (or the root), push it, then set the ordinary
attributes. -/
def finishElement (mappings : List (Str × Str)) (elemIdx : Nat) (st : HState)
    (ordinary : List DeferredAttribute) : M HState :=
  let st := { st with doc := mappings.foldl (fun d pu => registerPfx d elemIdx pu.1 pu.2) st.doc }
  let st := appendToEither st (.elem elemIdx)
  let st := { st with stack := elemIdx :: st.stack }
  setOrdinaryAttrs mappings elemIdx ordinary st

/-- attributes_end (parser.rs lines 695-755): take the staged element and
deferred attributes; partition the attributes into namespace declarations
(prefix exactly "xmlns") and ordinary attributes; build this element's
prefix-to-URI mapping from the declarations; resolve the element's own
prefix against that mapping first and the enclosing elements second, an
unresolved prefix being fatal; create the element, register its mappings,
append it to its parent (or the root) and push it; then resolve and set
each ordinary attribute the same way. -/
def attributesEndEvent (st : HState) : M HState :=
  match st.element with
  | none => .error Fatal.noDeferredElement
  | some deferredElement =>
    let deferredAttributes := st.attributes
    let st := { st with element := none, attributes := [] }
    let pr := deferredAttributes.partition
      (fun a => decide (a.name.pfx = some ("xmlns".data)))
    match buildMappings pr.1 [] with
    | .error e => .error e
    | .ok mappings =>
      match deferredElement.pfx with
      | some p =>
        match resolvePfx mappings st p with
        | none => .error (Fatal.unknownNsPfx p)
        | some u =>
          let (d, i) := createElement st.doc (some u) deferredElement.localPart
          finishElement mappings i { st with doc := setPreferredPfxElem d i (some p) } pr.2
      | none =>
        let (d, i) := createElement st.doc none deferredElement.localPart
        finishElement mappings i { st with doc := d } pr.2

/-! ## Stateful combinators: the outcome algebra threaded through the
mutable sink (modelled from the spec; state from a failing branch is
kept, as the Rust &mut sink keeps mutations of abandoned branches) -/

/-- A pure outcome viewed as a sink computation. -/
def liftP (r : PResult α) (st : HState) : M (PResult α × HState) :=
  .ok (r, st)

/-- Modelled from the spec: try_parse! around a stateful computation. -/
def tryPM (st : HState) (r : PResult α) (k : α → Nat → M (PResult β × HState)) :
    M (PResult β × HState) :=
  match r with
  | .success v p => k v p
  | .stalled _ fp _ => .ok (.failure fp, st)
  | .failure fp => .ok (.failure fp, st)

/-- Modelled from the spec: try_partial_parse! around a stateful
computation. -/
def bindPartialM (m : M (PResult α × HState))
    (k : α → Option Nat → Nat → HState → M (PResult β × HState)) :
    M (PResult β × HState) :=
  match m with
  | .error e => .error e
  | .ok (.success v p, st) => k v none p st
  | .ok (.stalled v fp p, st) => k v (some fp) p st
  | .ok (.failure fp, st) => .ok (.failure fp, st)

/-- Modelled from the spec: alternation over stateful computations; the
right branch starts from the state the left branch left behind, and of two
failures the greater offset is reported. -/
def orElseM (m : M (PResult α × HState)) (alt : HState → M (PResult α × HState)) :
    M (PResult α × HState) :=
  match m with
  | .error e => .error e
  | .ok (.failure fp, st) =>
    match alt st with
    | .error e => .error e
    | .ok (.failure fp2, st2) => .ok (.failure (max fp fp2), st2)
    | .ok (other, st2) => .ok (other, st2)
  | .ok (other, st) => .ok (other, st)

/-- Offset after an optional stateful parse (the pattern
"let (_, xml) = expr.optional(xml)"): the parse's next offset on success,
the original offset on failure; the state is kept either way. -/
def runOptional (m : M (PResult α × HState)) (orig : Nat) : M (Nat × HState) :=
  match m with
  | .error e => .error e
  | .ok (.success _ p, st) => .ok (p, st)
  | .ok (.stalled _ _ p, st) => .ok (p, st)
  | .ok (.failure _, st) => .ok (orig, st)

/-- Continue a computation with the offset-and-state pair produced by
runOptional. -/
def bindOpt (m : M (Nat × HState)) (k : Nat → HState → M (PResult α × HState)) :
    M (PResult α × HState) :=
  match m with
  | .error e => .error e
  | .ok (pt, st) => k pt st

/-- Map the outcome value of a stateful computation. -/
def mapRes (g : α → β) (m : M (PResult α × HState)) : M (PResult β × HState) :=
  match m with
  | .error e => .error e
  | .ok (r, st) => .ok (pmap g r, st)

/-- Continue after a sink event that may abort. -/
def withEvent (m : M HState) (k : HState → M (PResult α × HState)) :
    M (PResult α × HState) :=
  match m with
  | .error e => .error e
  | .ok st => k st

/-- Modelled from the spec: peresil zero_or_more; repeats the parse,
collecting values, and reports the parsed prefix together with the failure
that ended the repetition (a stalled outcome). Fuel bounds the number of
repetitions; exhausted fuel is a plain failure at the current offset. -/
def zeroOrMoreAux (f : Nat → HState → M (PResult α × HState)) :
    Nat → List α → Nat → HState → M (PResult (List α) × HState)
  | 0, _, pt, st => .ok (.failure pt, st)
  | fuel + 1, acc, pt, st =>
    match f pt st with
    | .error e => .error e
    | .ok (.success v p, st') => zeroOrMoreAux f fuel (acc ++ [v]) p st'
    | .ok (.failure fp, st') => .ok (.stalled acc fp pt, st')
    | .ok (.stalled _ fp _, st') => .ok (.failure fp, st')

/-- Modelled from the spec: peresil zero_or_more. -/
def zeroOrMoreM (f : Nat → HState → M (PResult α × HState)) (fuel : Nat)
    (pt : Nat) (st : HState) : M (PResult (List α) × HState) :=
  zeroOrMoreAux f fuel [] pt st

/-! ## Grammar layer, non-recursive productions (parser.rs 177-527) -/

/-- parse_eq (parser.rs lines 182-188). -/
def parseEq (input : Str) (pt : Nat) : PResult Unit :=
  let pt := optNext (consumeSpace input pt) pt
  tryParseP (consumeLiteral input ("=".data) pt) fun _ pt =>
  let pt := optNext (consumeSpace input pt) pt
  .success () pt

/-- The inner version_num parse of parse_version_info (parser.rs lines
191-198): "1." then decimal digits, returning the consumed slice. -/
def versionNum (input : Str) (pt : Nat) : PResult Str :=
  tryParseP (consumeLiteral input ("1.".data) pt) fun _ p =>
  tryParseP (consumeDecimalChars input p) fun _ p2 =>
  .success ((input.drop pt).take (p2 - pt)) p2

/-- parse_one_quoted_value for a pure inner parse (parser.rs lines
242-252): the opening quote, the inner parse, then the closing quote,
whose failure competes with the inner parse's saved partial failure. -/
def parseOneQuotedValueP (input : Str) (quote : Char) (f : Nat → PResult α)
    (pt : Nat) : PResult α :=
  tryParseP (consumeLiteral input [quote] pt) fun _ pt =>
  bindPartialP (f pt) fun v saved p =>
  pmap (fun _ => v) (resumeP saved (consumeLiteral input [quote] p))

/-- parse_quoted_value for a pure inner parse (parser.rs lines 254-260):
the single-quote and double-quote bracketings tried as an alternation. -/
def parseQuotedValueP (input : Str) (f : Char → Nat → PResult α) (pt : Nat) :
    PResult α :=
  orElseP (parseOneQuotedValueP input '\'' (f '\'') pt)
    (fun _ => parseOneQuotedValueP input '"' (f '"') pt)

/-- parse_version_info (parser.rs lines 190-208). -/
def parseVersionInfo (input : Str) (pt : Nat) : PResult Str :=
  tryParseP (consumeSpace input pt) fun _ pt =>
  tryParseP (consumeLiteral input ("version".data) pt) fun _ pt =>
  tryParseP (parseEq input pt) fun _ pt =>
  tryParseP (parseQuotedValueP input (fun _ p => versionNum input p) pt) fun version pt =>
  .success version pt

/-- parse_xml_declaration (parser.rs lines 210-219). -/
def parseXmlDeclaration (input : Str) (pt : Nat) : PResult Unit :=
  tryParseP (consumeLiteral input ("<?xml".data) pt) fun _ pt =>
  tryParseP (parseVersionInfo input pt) fun _ pt =>
  let pt := optNext (consumeSpace input pt) pt
  tryParseP (consumeLiteral input ("?>".data) pt) fun _ pt =>
  .success () pt

/-- parse_entity_ref (parser.rs lines 353-359). -/
def parseEntityRef (input : Str) (pt : Nat) : PResult Reference :=
  tryParseP (consumeLiteral input ("&".data) pt) fun _ pt =>
  tryParseP (consumeName input pt) fun name pt =>
  tryParseP (consumeLiteral input (";".data) pt) fun _ pt =>
  .success (.entityReference name) pt

/-- parse_decimal_char_ref (parser.rs lines 361-367). -/
def parseDecimalCharRef (input : Str) (pt : Nat) : PResult Reference :=
  tryParseP (consumeLiteral input ("&#".data) pt) fun _ pt =>
  tryParseP (consumeDecimalChars input pt) fun dec pt =>
  tryParseP (consumeLiteral input (";".data) pt) fun _ pt =>
  .success (.decimalCharReference dec) pt

/-- parse_hex_char_ref (parser.rs lines 369-375). -/
def parseHexCharRef (input : Str) (pt : Nat) : PResult Reference :=
  tryParseP (consumeLiteral input ("&#x".data) pt) fun _ pt =>
  tryParseP (consumeHexChars input pt) fun hex pt =>
  tryParseP (consumeLiteral input (";".data) pt) fun _ pt =>
  .success (.hexCharReference hex) pt

/-- parse_reference (parser.rs lines 377-381). -/
def parseReference (input : Str) (pt : Nat) : PResult Reference :=
  orElseP (parseEntityRef input pt) (fun _ =>
  orElseP (parseDecimalCharRef input pt) (fun _ =>
  parseHexCharRef input pt))

/-- parse_element_end (parser.rs lines 321-327). -/
def parseElementEnd (input : Str) (pt : Nat) : PResult PrefixedName :=
  tryParseP (consumeLiteral input ("</".data) pt) fun _ pt =>
  tryParseP (consumePrefixedName input pt) fun name pt =>
  let pt := optNext (consumeSpace input pt) pt
  tryParseP (consumeLiteral input (">".data) pt) fun _ pt =>
  .success name pt

/-- parse_empty_element_tail (parser.rs lines 451-455). -/
def parseEmptyElementTail (input : Str) (pt : Nat) : PResult Unit :=
  tryParseP (consumeLiteral input ("/>".data) pt) fun _ pt =>
  .success () pt

/-- parse_comment (parser.rs lines 383-393). -/
def parseComment (input : Str) (pt : Nat) (st : HState) : M (PResult Unit × HState) :=
  tryPM st (consumeLiteral input ("<!--".data) pt) fun _ pt =>
  tryPM st (consumeComment input pt) fun text pt =>
  tryPM st (consumeLiteral input ("-->".data) pt) fun _ pt =>
  .ok (.success () pt, commentEvent st text)

/-- parse_pi_value (parser.rs lines 395-398). -/
def parsePiValue (input : Str) (pt : Nat) : PResult Str :=
  tryParseP (consumeSpace input pt) fun _ pt =>
  consumePiValue input pt

/-- Case-insensitive ASCII string comparison (eq_ignore_ascii_case). -/
def eqIgnoreAsciiCase (a b : Str) : Bool :=
  let lower := fun (c : Char) => if 'A' ≤ c && c ≤ 'Z' then Char.ofNat (c.toNat + 32) else c
  a.map lower = b.map lower

/-- parse_pi (parser.rs lines 400-415): the reserved target "xml"
(case-insensitive) is fatal. -/
def parsePi (input : Str) (pt : Nat) (st : HState) : M (PResult Unit × HState) :=
  tryPM st (consumeLiteral input ("<?".data) pt) fun _ pt =>
  tryPM st (consumeName input pt) fun target pt =>
  tryPM st (optionalP (parsePiValue input pt) pt) fun value pt =>
  tryPM st (consumeLiteral input ("?>".data) pt) fun _ pt =>
  if eqIgnoreAsciiCase target ("xml".data) then .error Fatal.xmlPiTarget
  else .ok (.success () pt, piEvent st target value)

/-- parse_misc (parser.rs lines 221-227): comment, processing instruction
or whitespace. -/
def parseMisc (input : Str) (pt : Nat) (st : HState) : M (PResult Unit × HState) :=
  orElseM (parseComment input pt st) (fun st =>
  orElseM (parsePi input pt st) (fun st =>
  liftP (pmap (fun _ => ()) (consumeSpace input pt)) st))

/-- parse_miscs (parser.rs lines 229-233). -/
def parseMiscs (input : Str) (fuel : Nat) (pt : Nat) (st : HState) :
    M (PResult Unit × HState) :=
  mapRes (fun _ => ()) (zeroOrMoreM (parseMisc input) fuel pt st)

/-- parse_prolog (parser.rs lines 235-240). -/
def parseProlog (input : Str) (fuel : Nat) (pt : Nat) (st : HState) :
    M (PResult Unit × HState) :=
  let pt := optNext (parseXmlDeclaration input pt) pt
  parseMiscs input fuel pt st

/-- parse_one_quoted_value for a stateful inner parse (parser.rs lines
242-252). -/
def parseOneQuotedValueM (input : Str) (quote : Char)
    (f : Nat → HState → M (PResult α × HState)) (pt : Nat) (st : HState) :
    M (PResult α × HState) :=
  tryPM st (consumeLiteral input [quote] pt) fun _ pt =>
  bindPartialM (f pt st) fun v saved p st =>
  .ok (pmap (fun _ => v) (resumeP saved (consumeLiteral input [quote] p)), st)

/-- parse_quoted_value for a stateful inner parse (parser.rs lines
254-260): the single-quote and double-quote bracketings tried as an
alternation around the same inner parse. -/
def parseQuotedValueM (input : Str)
    (f : Char → Nat → HState → M (PResult α × HState)) (pt : Nat) (st : HState) :
    M (PResult α × HState) :=
  orElseM (parseOneQuotedValueM input '\'' (f '\'') pt st) (fun st =>
  parseOneQuotedValueM input '"' (f '"') pt st)

/-- parse_attribute_literal (parser.rs lines 262-270). -/
def parseAttributeLiteral (input : Str) (quote : Char) (pt : Nat) (st : HState) :
    M (PResult Unit × HState) :=
  tryPM st (consumeAttributeValue input quote pt) fun val pt =>
  withEvent (attributeValueEvent st (.literalAttributeValue val)) fun st =>
  .ok (.success () pt, st)

/-- parse_attribute_reference (parser.rs lines 272-280). -/
def parseAttributeReference (input : Str) (pt : Nat) (st : HState) :
    M (PResult Unit × HState) :=
  tryPM st (parseReference input pt) fun r pt =>
  withEvent (attributeValueEvent st (.referenceAttributeValue r)) fun st =>
  .ok (.success () pt, st)

/-- parse_attribute_values (parser.rs lines 282-291). -/
def parseAttributeValues (input : Str) (fuel : Nat) (quote : Char) (pt : Nat)
    (st : HState) : M (PResult Unit × HState) :=
  mapRes (fun _ => ()) (zeroOrMoreM (fun pt st =>
    orElseM (parseAttributeLiteral input quote pt st) (fun st =>
    parseAttributeReference input pt st)) fuel pt st)

/-- parse_attribute (parser.rs lines 293-312). -/
def parseAttribute (input : Str) (fuel : Nat) (pt : Nat) (st : HState) :
    M (PResult Unit × HState) :=
  tryPM st (consumeSpace input pt) fun _ pt =>
  tryPM st (consumePrefixedName input pt) fun name pt =>
  let st := attributeStartEvent st name
  tryPM st (parseEq input pt) fun _ pt =>
  match parseQuotedValueM input (fun quote => parseAttributeValues input fuel quote) pt st with
  | .error e => .error e
  | .ok (.success _ pt, st) => .ok (.success () pt, attributeEndEvent st name)
  | .ok (.stalled _ fp _, st) => .ok (.failure fp, st)
  | .ok (.failure fp, st) => .ok (.failure fp, st)

/-- parse_attributes (parser.rs lines 314-319). -/
def parseAttributes (input : Str) (fuel : Nat) (pt : Nat) (st : HState) :
    M (PResult Unit × HState) :=
  mapRes (fun _ => ()) (zeroOrMoreM (parseAttribute input fuel) fuel pt st)

/-- parse_char_data (parser.rs lines 329-338). -/
def parseCharData (input : Str) (pt : Nat) (st : HState) : M (PResult Unit × HState) :=
  tryPM st (consumeCharData input pt) fun text pt =>
  withEvent (textEvent st text) fun st =>
  .ok (.success () pt, st)

/-- parse_cdata (parser.rs lines 340-351). -/
def parseCdata (input : Str) (pt : Nat) (st : HState) : M (PResult Unit × HState) :=
  tryPM st (consumeLiteral input ("<![CDATA[".data) pt) fun _ pt =>
  tryPM st (consumeCdata input pt) fun text pt =>
  tryPM st (consumeLiteral input ("]]>".data) pt) fun _ pt =>
  withEvent (textEvent st text) fun st =>
  .ok (.success () pt, st)

/-- parse_content_reference (parser.rs lines 417-425). -/
def parseContentReference (input : Str) (pt : Nat) (st : HState) :
    M (PResult Unit × HState) :=
  tryPM st (parseReference input pt) fun r pt =>
  withEvent (referenceEvent st r) fun st =>
  .ok (.success () pt, st)

/-! ## Grammar layer, the recursive knot (parser.rs 427-496): element,
non-empty-element tail, content and rest-of-content, combined into one
fuel-indexed function so that the recursion is structural on the fuel -/

/-- Which production of the recursive knot to run. -/
inductive GrammarAt where
  | element
  | nonEmptyTail (startName : PrefixedName)
  | content
  | restOfContent
deriving DecidableEq, Repr

/-- The mutually recursive productions parse_element (parser.rs 474-496),
parse_non_empty_element_tail (457-472, whose end-tag mismatch is fatal),
parse_content (444-449) and parse_rest_of_content (427-442), indexed by
fuel; exhausted fuel is a plain failure at the current offset. -/
def parseG (input : Str) : Nat → GrammarAt → Nat → HState → M (PResult Unit × HState)
  | 0, _, pt, st => .ok (.failure pt, st)
  | fuel + 1, g, pt, st =>
    match g with
    | .element =>
      tryPM st (consumeStartTag input pt) fun _ pt =>
      tryPM st (consumePrefixedName input pt) fun name pt =>
      let st := elementStartEvent st name
      let st := attributesStartEvent st
      bindPartialM (parseAttributes input fuel pt st) fun _ saved pt st =>
        withEvent (attributesEndEvent st) fun st =>
        let pt := optNext (consumeSpace input pt) pt
        match orElseM (liftP (parseEmptyElementTail input pt) st) (fun st =>
          parseG input fuel (.nonEmptyTail name) pt st) with
        | .error e => .error e
        | .ok (r, st) =>
          match resumeP saved r with
          | .success _ p => .ok (.success () p, elementEndEvent st)
          | .stalled _ fp _ => .ok (.failure fp, st)
          | .failure fp => .ok (.failure fp, st)
    | .nonEmptyTail startName =>
      tryPM st (consumeLiteral input (">".data) pt) fun _ pt =>
      bindPartialM (parseG input fuel .content pt st) fun _ saved pt st =>
        match resumeP saved (parseElementEnd input pt) with
        | .success endName p =>
          if startName = endName then .ok (.success () p, st)
          else .error Fatal.mismatchedTags
        | .stalled _ fp _ => .ok (.failure fp, st)
        | .failure fp => .ok (.failure fp, st)
    | .content =>
      bindOpt (runOptional (parseCharData input pt st) pt) fun pt st =>
      mapRes (fun _ => ())
        (zeroOrMoreM (fun pt st => parseG input fuel .restOfContent pt st) fuel pt st)
    | .restOfContent =>
      match
        orElseM (parseG input fuel .element pt st) (fun st =>
        orElseM (parseCdata input pt st) (fun st =>
        orElseM (parseContentReference input pt st) (fun st =>
        orElseM (parseComment input pt st) (fun st =>
        parsePi input pt st)))) with
      | .error e => .error e
      | .ok (.success _ pt, st) =>
        bindOpt (runOptional (parseCharData input pt st) pt) fun pt st =>
        .ok (.success () pt, st)
      | .ok (.stalled _ fp _, st) => .ok (.failure fp, st)
      | .ok (.failure fp, st) => .ok (.failure fp, st)

/-- parse_element (parser.rs lines 474-496). -/
def parseElement (input : Str) (fuel : Nat) (pt : Nat) (st : HState) :
    M (PResult Unit × HState) :=
  parseG input fuel .element pt st

/-- parse_content (parser.rs lines 444-449). -/
def parseContent (input : Str) (fuel : Nat) (pt : Nat) (st : HState) :
    M (PResult Unit × HState) :=
  parseG input fuel .content pt st

/-- parse_document (parser.rs lines 498-507): prolog, the root element
(whose failure competes with the prolog's saved partial failure), then
optional trailing miscellany; nothing requires the input to be fully
consumed. -/
def parseDocument (input : Str) (fuel : Nat) (pt : Nat) (st : HState) :
    M (PResult Unit × HState) :=
  bindPartialM (parseProlog input fuel pt st) fun _ saved pt st =>
    match parseElement input fuel pt st with
    | .error e => .error e
    | .ok (r, st) =>
      match resumeP saved r with
      | .success _ pt =>
        bindOpt (runOptional (parseMiscs input fuel pt st) pt) fun pt st =>
        .ok (.success () pt, st)
      | .stalled _ fp _ => .ok (.failure fp, st)
      | .failure fp => .ok (.failure fp, st)

/-- The fuel the top-level entry point allots: comfortably more than one
unit per input character (each repetition and each nesting level of the
grammar consumes input). -/
def parseFuel (input : Str) : Nat := 2 * input.length + 2

/-- Parser::parse (parser.rs lines 509-527): run parse_document on a fresh
hydrator over a fresh document from offset 0; a success yields the built
document (with no check that the input was fully consumed), a partial or
plain failure yields the failure offset. Fatal semantic failures (Rust
panics) surface as the outer Except error. -/
def parse (input : Str) : M (Except Nat Doc) :=
  match parseDocument input (parseFuel input) 0 initialState with
  | .error e => .error e
  | .ok (.success _ _, st) => .ok (.ok st.doc)
  | .ok (.stalled _ fp _, _) => .ok (.error fp)
  | .ok (.failure fp, _) => .ok (.error fp)

/-- Convenience entry point on Lean strings. -/
def parseStr (s : String) : M (Except Nat Doc) := parse s.data

/-- A one-attribute input fragment " scope=" followed by the value v
enclosed in the given quote character, used to state quote-style
independence for an arbitrary attribute value. -/
def scopeAttrInput (q : Char) (v : Str) : Str :=
  ' ' :: 's' :: 'c' :: 'o' :: 'p' :: 'e' :: '=' :: q :: (v ++ [q])

/-- The name-and-namespace projection of an element record that addChild
and registerPfx cannot change. -/
def elemIdProj (e : ElemData) : Option Str × Str × Option Str :=
  (e.nsUri, e.localName, e.preferredPfx)

/-- The computation does not abort with the no-open-element fatal error. -/
def NoNoElem (m : M (PResult α × HState)) : Prop :=
  m ≠ Except.error Fatal.noElementToAppend

/-- Every state the computation can return carries exactly the stack s. -/
def KeepsStack (m : M (PResult α × HState)) (s : List Nat) : Prop :=
  ∀ r st', m = .ok (r, st') → st'.stack = s

/-- Every state the computation can return has a stack at least as deep
as s (the element stack never shrinks below its entry depth: a failing
element parse leaves its pushed element behind). -/
def GrowsFrom (m : M (PResult α × HState)) (s : List Nat) : Prop :=
  ∀ r st', m = .ok (r, st') → s.length ≤ st'.stack.length


/-! ## Helper lemmas about the arena update -/

theorem listUpd_concat (l : List α) (x : α) (f : α → α) :
    listUpd (l ++ [x]) l.length f = l ++ [f x] := by
  induction l with
  | nil => rfl
  | cons a t ih => simpa [listUpd] using ih

theorem listUpd_get_ne (l : List α) (j k : Nat) (f : α → α) (h : j ≠ k) :
    (listUpd l j f).get? k = l.get? k := by
  induction l generalizing j k with
  | nil => rfl
  | cons a t ih =>
    cases j with
    | zero =>
      cases k with
      | zero => exact absurd rfl h
      | succ k => simp [listUpd]
    | succ j =>
      cases k with
      | zero => simp [listUpd]
      | succ k => simpa [listUpd] using ih j k (fun hh => h (by rw [hh]))

theorem listUpd_get_eq (l : List α) (j : Nat) (f : α → α) :
    (listUpd l j f).get? j = (l.get? j).map f := by
  induction l generalizing j with
  | nil => rfl
  | cons a t ih =>
    cases j with
    | zero => simp [listUpd]
    | succ j => simpa [listUpd] using ih j

theorem listUpd_get_map {β : Type} (l : List α) (j k : Nat) (f : α → α) (proj : α → β)
    (hf : ∀ e, proj (f e) = proj e) :
    ((listUpd l j f).get? k).map proj = (l.get? k).map proj := by
  rcases eq_or_ne j k with rfl | h
  · rw [listUpd_get_eq]
    cases l.get? j with
    | none => rfl
    | some e => simp [hf]
  · rw [listUpd_get_ne l j k f h]

theorem addChild_get_idProj (d : Doc) (i : Nat) (ref : NodeRef) (k : Nat) :
    (((addChild d i ref).elements.get? k).map elemIdProj) =
      ((d.elements.get? k).map elemIdProj) := by
  cases ref with
  | elem j =>
    show ((listUpd (listUpd d.elements i
        (fun e => { e with children := e.children ++ [NodeRef.elem j] })) j
        (fun e => { e with parent := some i })).get? k).map elemIdProj = _
    rw [listUpd_get_map (listUpd d.elements i
        (fun e => { e with children := e.children ++ [NodeRef.elem j] })) j k
        (fun e => { e with parent := some i }) elemIdProj (fun e => rfl)]
    exact listUpd_get_map d.elements i k
      (fun e => { e with children := e.children ++ [NodeRef.elem j] }) elemIdProj (fun e => rfl)
  | text j =>
    exact listUpd_get_map d.elements i k
      (fun e => { e with children := e.children ++ [NodeRef.text j] }) elemIdProj (fun e => rfl)
  | comment j =>
    exact listUpd_get_map d.elements i k
      (fun e => { e with children := e.children ++ [NodeRef.comment j] }) elemIdProj (fun e => rfl)
  | pi j =>
    exact listUpd_get_map d.elements i k
      (fun e => { e with children := e.children ++ [NodeRef.pi j] }) elemIdProj (fun e => rfl)

/-! ## Invariants for the open-element stack: the grammar delivers text
and reference events only while an element is open, so the fatal
"No element to append to" branch is unreachable through parse -/

theorem keeps_grows {m : M (PResult α × HState)} {s : List Nat}
    (h : KeepsStack m s) : GrowsFrom m s :=
  fun r st' he => le_of_eq (by rw [h r st' he])

theorem appendToEither_stack (st : HState) (ref : NodeRef) :
    (appendToEither st ref).stack = st.stack := by
  obtain ⟨d, stk, el, ats⟩ := st
  cases stk <;> rfl

theorem commentEvent_stack (st : HState) (t : Str) :
    (commentEvent st t).stack = st.stack := by
  simpa [commentEvent] using appendToEither_stack _ _

theorem piEvent_stack (st : HState) (target : Str) (v : Option Str) :
    (piEvent st target v).stack = st.stack := by
  simpa [piEvent] using appendToEither_stack _ _

theorem textEvent_cases (st : HState) (t : Str) :
    (textEvent st t = .error Fatal.noElementToAppend ∧ st.stack = []) ∨
    (∃ st', textEvent st t = .ok st' ∧ st'.stack = st.stack) := by
  obtain ⟨d, stk, el, ats⟩ := st
  cases stk with
  | nil => exact Or.inl ⟨rfl, rfl⟩
  | cons p rest => exact Or.inr ⟨_, rfl, rfl⟩

theorem decodeReference_ne (r : Reference) :
    decodeReference r ≠ .error Fatal.noElementToAppend := by
  cases r with
  | decimalCharReference d =>
    simp only [decodeReference]
    split <;> simp
  | hexCharReference h =>
    simp only [decodeReference]
    split <;> simp
  | entityReference e =>
    simp only [decodeReference]
    split_ifs <;> simp

theorem referenceEvent_props (st : HState) (r : Reference) (h : st.stack ≠ []) :
    referenceEvent st r ≠ .error Fatal.noElementToAppend ∧
    (∀ st', referenceEvent st r = .ok st' → st'.stack = st.stack) := by
  unfold referenceEvent
  cases hd : decodeReference r with
  | error e =>
    dsimp only
    refine ⟨fun he => decodeReference_ne r ?_, by simp⟩
    rw [hd]; rw [← Except.error.inj he]
  | ok s =>
    dsimp only
    rcases textEvent_cases st s with ⟨_, hnil⟩ | ⟨st', hok, hstk⟩
    · exact absurd hnil h
    · rw [hok]
      exact ⟨by simp, fun st2 he => by rw [← Except.ok.inj he]; exact hstk⟩

theorem attributeValueEvent_props (st : HState) (v : AttributeValue) :
    attributeValueEvent st v ≠ .error Fatal.noElementToAppend ∧
    (∀ st', attributeValueEvent st v = .ok st' → st'.stack = st.stack) := by
  unfold attributeValueEvent
  cases pushAttrValue st.attributes v with
  | none => simp
  | some l => exact ⟨by simp, fun st' he => by rw [← Except.ok.inj he]⟩

theorem ingestAttrValues_ne (vs : List AttributeValue) (acc : Str) :
    ingestAttrValues vs acc ≠ .error Fatal.noElementToAppend := by
  induction vs generalizing acc with
  | nil => simp [ingestAttrValues]
  | cons v rest ih =>
    cases v with
    | literalAttributeValue s => simpa [ingestAttrValues] using ih (acc ++ s)
    | referenceAttributeValue r =>
      simp only [ingestAttrValues]
      cases hd : decodeReference r with
      | error e =>
        intro he
        exact decodeReference_ne r (by rw [hd, Except.error.inj he])
      | ok s => exact ih (acc ++ s)

theorem buildMappings_ne (l : List DeferredAttribute) (m : List (Str × Str)) :
    buildMappings l m ≠ .error Fatal.noElementToAppend := by
  induction l generalizing m with
  | nil => simp [buildMappings]
  | cons ns rest ih =>
    simp only [buildMappings]
    cases hc : convertAttrValues ns.values with
    | error e =>
      intro he
      exact ingestAttrValues_ne ns.values []
        (by rw [show convertAttrValues ns.values = ingestAttrValues ns.values [] from rfl] at hc
            rw [hc, Except.error.inj he])
    | ok value => exact ih _

theorem setOrdinaryAttrs_props (mappings : List (Str × Str)) (elemIdx : Nat)
    (l : List DeferredAttribute) (st : HState) :
    setOrdinaryAttrs mappings elemIdx l st ≠ .error Fatal.noElementToAppend ∧
    (∀ st', setOrdinaryAttrs mappings elemIdx l st = .ok st' → st'.stack = st.stack) := by
  induction l generalizing st with
  | nil =>
    exact ⟨by simp [setOrdinaryAttrs], fun st' he => by
      rw [← Except.ok.inj (by simpa [setOrdinaryAttrs] using he : (Except.ok st : M HState) = .ok st')]⟩
  | cons attr rest ih =>
    simp only [setOrdinaryAttrs]
    cases hc : convertAttrValues attr.values with
    | error e =>
      dsimp only
      constructor
      · intro he
        exact ingestAttrValues_ne attr.values []
          (by rw [show convertAttrValues attr.values = ingestAttrValues attr.values [] from rfl] at hc
              rw [hc, Except.error.inj he])
      · simp
    | ok value =>
      dsimp only
      cases attr.name.pfx with
      | none =>
        dsimp only
        exact ⟨(ih _).1, fun st' he => by simpa using (ih _).2 st' he⟩
      | some p =>
        dsimp only
        cases resolvePfx mappings st p with
        | none => dsimp only; simp
        | some u =>
          dsimp only
          exact ⟨(ih _).1, fun st' he => by simpa using (ih _).2 st' he⟩

theorem finishElement_props (mappings : List (Str × Str)) (elemIdx : Nat)
    (st : HState) (ordinary : List DeferredAttribute) :
    finishElement mappings elemIdx st ordinary ≠ .error Fatal.noElementToAppend ∧
    (∀ st', finishElement mappings elemIdx st ordinary = .ok st' →
      st'.stack = elemIdx :: st.stack) := by
  unfold finishElement
  constructor
  · exact (setOrdinaryAttrs_props _ _ _ _).1
  · intro st' he
    have h2 := (setOrdinaryAttrs_props _ _ _ _).2 st' he
    rw [h2]
    simp [appendToEither_stack]

theorem attributesEndEvent_props (st : HState) :
    attributesEndEvent st ≠ .error Fatal.noElementToAppend ∧
    (∀ st', attributesEndEvent st = .ok st' → ∃ i, st'.stack = i :: st.stack) := by
  constructor
  · intro he
    unfold attributesEndEvent at he
    dsimp only at he
    repeat' split at he
    all_goals
      first
      | (simp at he; done)
      | exact (finishElement_props _ _ _ _).1 he
      | (rename_i e heq
         rw [Except.error.inj he] at heq
         exact buildMappings_ne _ _ heq)
  · intro st' he
    unfold attributesEndEvent at he
    dsimp only at he
    repeat' split at he
    all_goals
      first
      | (simp at he; done)
      | exact ⟨_, by simpa using (finishElement_props _ _ _ _).2 st' he⟩

/-! ## Invariant transport through the outcome combinators -/

theorem tryPM_ne (st : HState) (r : PResult α) (k : α → Nat → M (PResult β × HState))
    (hk : ∀ v p, NoNoElem (k v p)) : NoNoElem (tryPM st r k) := by
  cases r with
  | success v p => exact hk v p
  | stalled v fp p => simp [tryPM, NoNoElem]
  | failure fp => simp [tryPM, NoNoElem]

theorem tryPM_keeps (st : HState) (r : PResult α) (k : α → Nat → M (PResult β × HState))
    (s : List Nat) (hst : st.stack = s)
    (hk : ∀ v p, KeepsStack (k v p) s) : KeepsStack (tryPM st r k) s := by
  cases r with
  | success v p => exact hk v p
  | stalled v fp p =>
    intro r' st' he
    obtain ⟨-, rfl⟩ := Prod.mk.injEq .. ▸ Except.ok.inj he
    exact hst
  | failure fp =>
    intro r' st' he
    obtain ⟨-, rfl⟩ := Prod.mk.injEq .. ▸ Except.ok.inj he
    exact hst

theorem withEvent_ne (m : M HState) (k : HState → M (PResult α × HState))
    (hm : m ≠ .error Fatal.noElementToAppend)
    (hk : ∀ st2, m = .ok st2 → NoNoElem (k st2)) : NoNoElem (withEvent m k) := by
  cases hme : m with
  | error e =>
    simp only [withEvent]
    intro he
    exact hm (by rw [hme, Except.error.inj he])
  | ok st2 => exact hk st2 hme

theorem withEvent_keeps (m : M HState) (k : HState → M (PResult α × HState)) (s : List Nat)
    (hm : ∀ st2, m = .ok st2 → st2.stack = s)
    (hk : ∀ st2, m = .ok st2 → KeepsStack (k st2) st2.stack) :
    KeepsStack (withEvent m k) s := by
  cases hme : m with
  | error e => intro r' st' he; simp [withEvent] at he
  | ok st2 =>
    intro r' st' he
    rw [(hk st2 hme) r' st' he]
    exact hm st2 hme

theorem bindPartialM_ne (m : M (PResult α × HState))
    (k : α → Option Nat → Nat → HState → M (PResult β × HState))
    (hm : NoNoElem m)
    (hk : ∀ v saved p st2, m = .ok (.success v p, st2) ∨ m = .ok (.stalled v (saved.getD 0) p, st2) →
      NoNoElem (k v saved p st2)) : NoNoElem (bindPartialM m k) := by
  cases hme : m with
  | error e =>
    simp only [bindPartialM]
    intro he
    exact hm (by rw [hme, Except.error.inj he])
  | ok rs =>
    obtain ⟨r, st2⟩ := rs
    cases r with
    | success v p => exact hk v none p st2 (Or.inl hme)
    | stalled v fp p => exact hk v (some fp) p st2 (Or.inr hme)
    | failure fp => simp [bindPartialM, NoNoElem]

theorem bindPartialM_keeps (m : M (PResult α × HState))
    (k : α → Option Nat → Nat → HState → M (PResult β × HState)) (s : List Nat)
    (hm : KeepsStack m s)
    (hk : ∀ v saved p st2, KeepsStack (k v saved p st2) st2.stack) :
    KeepsStack (bindPartialM m k) s := by
  cases hme : m with
  | error e => intro r' st' he; simp [bindPartialM] at he
  | ok rs =>
    obtain ⟨r, st2⟩ := rs
    have hs2 : st2.stack = s := hm r st2 hme
    cases r with
    | success v p =>
      intro r' st' he
      rw [(hk v none p st2) r' st' he, hs2]
    | stalled v fp p =>
      intro r' st' he
      rw [(hk v (some fp) p st2) r' st' he, hs2]
    | failure fp =>
      intro r' st' he
      obtain ⟨-, rfl⟩ := Prod.mk.injEq .. ▸ Except.ok.inj he
      exact hs2

theorem orElseM_ne (m : M (PResult α × HState)) (alt : HState → M (PResult α × HState))
    (hm : NoNoElem m)
    (halt : ∀ r st2, m = .ok (r, st2) → NoNoElem (alt st2)) : NoNoElem (orElseM m alt) := by
  cases hme : m with
  | error e =>
    simp only [orElseM]
    intro he
    exact hm (by rw [hme, Except.error.inj he])
  | ok rs =>
    obtain ⟨r, st2⟩ := rs
    cases r with
    | success v p => simp [orElseM, NoNoElem]
    | stalled v fp p => simp [orElseM, NoNoElem]
    | failure fp =>
      simp only [orElseM]
      cases hae : alt st2 with
      | error e =>
        intro he
        exact halt _ st2 hme (by rw [hae, Except.error.inj he])
      | ok rs2 =>
        obtain ⟨r2, st3⟩ := rs2
        cases r2 <;> simp [NoNoElem]

theorem orElseM_grows (m : M (PResult α × HState)) (alt : HState → M (PResult α × HState))
    (s : List Nat) (hm : GrowsFrom m s)
    (halt : ∀ r st2, m = .ok (r, st2) → GrowsFrom (alt st2) st2.stack) :
    GrowsFrom (orElseM m alt) s := by
  cases hme : m with
  | error e => intro r' st' he; simp [orElseM] at he
  | ok rs =>
    obtain ⟨r, st2⟩ := rs
    have hs2 : s.length ≤ st2.stack.length := hm r st2 hme
    cases r with
    | success v p =>
      intro r' st' he
      simp only [orElseM] at he
      obtain ⟨-, rfl⟩ := Prod.mk.injEq .. ▸ Except.ok.inj he
      exact hs2
    | stalled v fp p =>
      intro r' st' he
      simp only [orElseM] at he
      obtain ⟨-, rfl⟩ := Prod.mk.injEq .. ▸ Except.ok.inj he
      exact hs2
    | failure fp =>
      have hg := halt _ st2 hme
      intro r' st' he
      simp only [orElseM] at he
      cases hae : alt st2 with
      | error e => rw [hae] at he; exact absurd he (by simp)
      | ok rs2 =>
        obtain ⟨r2, st3⟩ := rs2
        have hs3 : st2.stack.length ≤ st3.stack.length := hg r2 st3 hae
        rw [hae] at he
        cases r2 with
        | success v2 p2 =>
          obtain ⟨-, rfl⟩ := Prod.mk.injEq .. ▸ Except.ok.inj he
          exact le_trans hs2 hs3
        | stalled v2 fp2 p2 =>
          obtain ⟨-, rfl⟩ := Prod.mk.injEq .. ▸ Except.ok.inj he
          exact le_trans hs2 hs3
        | failure fp2 =>
          obtain ⟨-, rfl⟩ := Prod.mk.injEq .. ▸ Except.ok.inj he
          exact le_trans hs2 hs3

theorem orElseM_keeps (m : M (PResult α × HState)) (alt : HState → M (PResult α × HState))
    (s : List Nat) (hm : KeepsStack m s)
    (halt : ∀ r st2, m = .ok (r, st2) → KeepsStack (alt st2) st2.stack) :
    KeepsStack (orElseM m alt) s := by
  cases hme : m with
  | error e => intro r' st' he; simp [orElseM] at he
  | ok rs =>
    obtain ⟨r, st2⟩ := rs
    have hs2 : st2.stack = s := hm r st2 hme
    cases r with
    | success v p =>
      intro r' st' he
      simp only [orElseM] at he
      obtain ⟨-, rfl⟩ := Prod.mk.injEq .. ▸ Except.ok.inj he
      exact hs2
    | stalled v fp p =>
      intro r' st' he
      simp only [orElseM] at he
      obtain ⟨-, rfl⟩ := Prod.mk.injEq .. ▸ Except.ok.inj he
      exact hs2
    | failure fp =>
      have hg := halt _ st2 hme
      intro r' st' he
      simp only [orElseM] at he
      cases hae : alt st2 with
      | error e => rw [hae] at he; exact absurd he (by simp)
      | ok rs2 =>
        obtain ⟨r2, st3⟩ := rs2
        have hs3 : st3.stack = st2.stack := hg r2 st3 hae
        rw [hae] at he
        cases r2 with
        | success v2 p2 =>
          obtain ⟨-, rfl⟩ := Prod.mk.injEq .. ▸ Except.ok.inj he
          rw [hs3, hs2]
        | stalled v2 fp2 p2 =>
          obtain ⟨-, rfl⟩ := Prod.mk.injEq .. ▸ Except.ok.inj he
          rw [hs3, hs2]
        | failure fp2 =>
          obtain ⟨-, rfl⟩ := Prod.mk.injEq .. ▸ Except.ok.inj he
          rw [hs3, hs2]

theorem tryPM_grows (st : HState) (r : PResult α) (k : α → Nat → M (PResult β × HState))
    (s : List Nat) (hst : st.stack = s)
    (hk : ∀ v p, GrowsFrom (k v p) s) : GrowsFrom (tryPM st r k) s := by
  cases r with
  | success v p => exact hk v p
  | stalled v fp p =>
    intro r' st' he
    obtain ⟨-, rfl⟩ := Prod.mk.injEq .. ▸ Except.ok.inj he
    exact le_of_eq (by rw [hst])
  | failure fp =>
    intro r' st' he
    obtain ⟨-, rfl⟩ := Prod.mk.injEq .. ▸ Except.ok.inj he
    exact le_of_eq (by rw [hst])

theorem bindPartialM_grows (m : M (PResult α × HState))
    (k : α → Option Nat → Nat → HState → M (PResult β × HState)) (s : List Nat)
    (hm : GrowsFrom m s)
    (hk : ∀ v saved p st2, (m = .ok (.success v p, st2) ∨ m = .ok (.stalled v (saved.getD 0) p, st2)) →
      GrowsFrom (k v saved p st2) st2.stack) :
    GrowsFrom (bindPartialM m k) s := by
  cases hme : m with
  | error e => intro r' st' he; simp [bindPartialM] at he
  | ok rs =>
    obtain ⟨r, st2⟩ := rs
    have hs2 : s.length ≤ st2.stack.length := hm r st2 hme
    cases r with
    | success v p =>
      intro r' st' he
      exact le_trans hs2 ((hk v none p st2 (Or.inl hme)) r' st' he)
    | stalled v fp p =>
      intro r' st' he
      exact le_trans hs2 ((hk v (some fp) p st2 (Or.inr hme)) r' st' he)
    | failure fp =>
      intro r' st' he
      obtain ⟨-, rfl⟩ := Prod.mk.injEq .. ▸ Except.ok.inj he
      exact hs2

theorem withEvent_grows (m : M HState) (k : HState → M (PResult α × HState)) (s : List Nat)
    (hk : ∀ st2, m = .ok st2 → GrowsFrom (k st2) s) :
    GrowsFrom (withEvent m k) s := by
  cases hme : m with
  | error e => intro r' st' he; simp [withEvent] at he
  | ok st2 => exact hk st2 hme

theorem liftP_props (r : PResult α) (st : HState) :
    NoNoElem (liftP r st) ∧ KeepsStack (liftP r st) st.stack := by
  refine ⟨by simp [liftP, NoNoElem], fun r' st' he => ?_⟩
  obtain ⟨-, rfl⟩ := Prod.mk.injEq .. ▸ Except.ok.inj he
  rfl

theorem mapRes_ne (g : α → β) (m : M (PResult α × HState)) (hm : NoNoElem m) :
    NoNoElem (mapRes g m) := by
  cases hme : m with
  | error e =>
    simp only [mapRes]
    intro he
    exact hm (by rw [hme, Except.error.inj he])
  | ok rs => obtain ⟨r, st2⟩ := rs; simp [mapRes, NoNoElem]

theorem mapRes_keeps (g : α → β) (m : M (PResult α × HState)) (s : List Nat)
    (hm : KeepsStack m s) : KeepsStack (mapRes g m) s := by
  cases hme : m with
  | error e => intro r' st' he; simp [mapRes] at he
  | ok rs =>
    obtain ⟨r, st2⟩ := rs
    intro r' st' he
    simp only [mapRes] at he
    obtain ⟨-, rfl⟩ := Prod.mk.injEq .. ▸ Except.ok.inj he
    exact hm r st2 hme

theorem mapRes_grows (g : α → β) (m : M (PResult α × HState)) (s : List Nat)
    (hm : GrowsFrom m s) : GrowsFrom (mapRes g m) s := by
  cases hme : m with
  | error e => intro r' st' he; simp [mapRes] at he
  | ok rs =>
    obtain ⟨r, st2⟩ := rs
    intro r' st' he
    simp only [mapRes] at he
    obtain ⟨-, rfl⟩ := Prod.mk.injEq .. ▸ Except.ok.inj he
    exact hm r st2 hme

theorem runOptional_err (m : M (PResult α × HState)) (orig : Nat) (e : Fatal)
    (he : runOptional m orig = .error e) : m = .error e := by
  cases hme : m with
  | error e2 =>
    rw [hme] at he
    simp only [runOptional] at he
    rw [Except.error.inj he]
  | ok rs =>
    obtain ⟨r, st2⟩ := rs
    rw [hme] at he
    cases r <;> simp [runOptional] at he

theorem runOptional_state (m : M (PResult α × HState)) (orig : Nat) (p : Nat) (st2 : HState)
    (he : runOptional m orig = .ok (p, st2)) : ∃ r, m = .ok (r, st2) := by
  cases hme : m with
  | error e2 => rw [hme] at he; simp [runOptional] at he
  | ok rs =>
    obtain ⟨r, st3⟩ := rs
    rw [hme] at he
    cases r with
    | success v q =>
      obtain ⟨-, rfl⟩ : q = p ∧ st3 = st2 := by simpa [runOptional] using he
      exact ⟨_, rfl⟩
    | stalled v fp q =>
      obtain ⟨-, rfl⟩ : q = p ∧ st3 = st2 := by simpa [runOptional] using he
      exact ⟨_, rfl⟩
    | failure fp =>
      obtain ⟨-, rfl⟩ : orig = p ∧ st3 = st2 := by simpa [runOptional] using he
      exact ⟨_, rfl⟩

theorem bindOpt_ne (m : M (Nat × HState)) (k : Nat → HState → M (PResult α × HState))
    (hm : m ≠ .error Fatal.noElementToAppend)
    (hk : ∀ p st2, m = .ok (p, st2) → NoNoElem (k p st2)) : NoNoElem (bindOpt m k) := by
  cases hme : m with
  | error e =>
    simp only [bindOpt]
    intro he
    exact hm (by rw [hme, Except.error.inj he])
  | ok ps => obtain ⟨p, st2⟩ := ps; exact hk p st2 hme

theorem bindOpt_grows (m : M (Nat × HState)) (k : Nat → HState → M (PResult α × HState))
    (s : List Nat)
    (hk : ∀ p st2, m = .ok (p, st2) → GrowsFrom (k p st2) s) :
    GrowsFrom (bindOpt m k) s := by
  cases hme : m with
  | error e => intro r' st' he; simp [bindOpt] at he
  | ok ps => obtain ⟨p, st2⟩ := ps; exact hk p st2 hme

theorem zeroOrMoreAux_plain (f : Nat → HState → M (PResult α × HState))
    (hne : ∀ pt st, NoNoElem (f pt st))
    (hk : ∀ pt st, KeepsStack (f pt st) st.stack) :
    ∀ (fuel : Nat) (acc : List α) (pt : Nat) (st : HState),
      NoNoElem (zeroOrMoreAux f fuel acc pt st) ∧
      KeepsStack (zeroOrMoreAux f fuel acc pt st) st.stack := by
  intro fuel
  induction fuel with
  | zero =>
    intro acc pt st
    refine ⟨by simp [zeroOrMoreAux, NoNoElem], fun r' st' he => ?_⟩
    obtain ⟨-, rfl⟩ : PResult.failure pt = r' ∧ st = st' := by simpa [zeroOrMoreAux] using he
    rfl
  | succ n ih =>
    intro acc pt st
    simp only [zeroOrMoreAux]
    cases hf : f pt st with
    | error e =>
      refine ⟨fun he => hne pt st ?_, fun r' st' h2 => by simp at h2⟩
      rw [hf, Except.error.inj he]
    | ok rs =>
      obtain ⟨r, st2⟩ := rs
      have hst2 : st2.stack = st.stack := hk pt st r st2 hf
      cases r with
      | success v p =>
        dsimp only
        refine ⟨(ih _ _ _).1, fun r' st' he => ?_⟩
        rw [(ih (acc ++ [v]) p st2).2 r' st' he, hst2]
      | stalled v fp p =>
        dsimp only
        refine ⟨by simp [NoNoElem], fun r' st' he => ?_⟩
        obtain ⟨-, rfl⟩ := Prod.mk.injEq .. ▸ Except.ok.inj he
        exact hst2
      | failure fp =>
        dsimp only
        refine ⟨by simp [NoNoElem], fun r' st' he => ?_⟩
        obtain ⟨-, rfl⟩ := Prod.mk.injEq .. ▸ Except.ok.inj he
        exact hst2

theorem zeroOrMoreAux_grows (f : Nat → HState → M (PResult α × HState))
    (hg : ∀ pt st, GrowsFrom (f pt st) st.stack) :
    ∀ (fuel : Nat) (acc : List α) (pt : Nat) (st : HState),
      GrowsFrom (zeroOrMoreAux f fuel acc pt st) st.stack := by
  intro fuel
  induction fuel with
  | zero =>
    intro acc pt st r' st' he
    obtain ⟨-, rfl⟩ : PResult.failure pt = r' ∧ st = st' := by simpa [zeroOrMoreAux] using he
    exact le_refl _
  | succ n ih =>
    intro acc pt st
    simp only [zeroOrMoreAux]
    cases hf : f pt st with
    | error e => intro r' st' he; simp at he
    | ok rs =>
      obtain ⟨r, st2⟩ := rs
      have hst2 : st.stack.length ≤ st2.stack.length := hg pt st r st2 hf
      cases r with
      | success v p =>
        dsimp only
        intro r' st' he
        exact le_trans hst2 (ih (acc ++ [v]) p st2 r' st' he)
      | stalled v fp p =>
        dsimp only
        intro r' st' he
        obtain ⟨-, rfl⟩ := Prod.mk.injEq .. ▸ Except.ok.inj he
        exact hst2
      | failure fp =>
        dsimp only
        intro r' st' he
        obtain ⟨-, rfl⟩ := Prod.mk.injEq .. ▸ Except.ok.inj he
        exact hst2

theorem zeroOrMoreAux_grow_ne (f : Nat → HState → M (PResult α × HState))
    (hne : ∀ pt st, st.stack ≠ [] → NoNoElem (f pt st))
    (hg : ∀ pt st, GrowsFrom (f pt st) st.stack) :
    ∀ (fuel : Nat) (acc : List α) (pt : Nat) (st : HState), st.stack ≠ [] →
      NoNoElem (zeroOrMoreAux f fuel acc pt st) := by
  intro fuel
  induction fuel with
  | zero => intro acc pt st _; simp [zeroOrMoreAux, NoNoElem]
  | succ n ih =>
    intro acc pt st hstk
    simp only [zeroOrMoreAux]
    cases hf : f pt st with
    | error e =>
      intro he
      exact hne pt st hstk (by rw [hf, Except.error.inj he])
    | ok rs =>
      obtain ⟨r, st2⟩ := rs
      have hlen : st.stack.length ≤ st2.stack.length := hg pt st r st2 hf
      have hstk2 : st2.stack ≠ [] := by
        intro hnil
        rw [hnil] at hlen
        exact hstk (List.eq_nil_of_length_eq_zero (Nat.le_zero.mp hlen))
      cases r with
      | success v p => exact ih (acc ++ [v]) p st2 hstk2
      | stalled v fp p => simp [NoNoElem]
      | failure fp => simp [NoNoElem]

/-! ## Per-production invariants -/

theorem textEvent_keeps (st : HState) (t : Str) :
    ∀ st2, textEvent st t = .ok st2 → st2.stack = st.stack := by
  intro st2 he
  rcases textEvent_cases st t with ⟨herr, -⟩ | ⟨st3, hok, hstk⟩
  · rw [herr] at he; simp at he
  · rw [hok] at he
    rw [← Except.ok.inj he]
    exact hstk

theorem referenceEvent_keeps (st : HState) (r : Reference) :
    ∀ st2, referenceEvent st r = .ok st2 → st2.stack = st.stack := by
  intro st2 he
  unfold referenceEvent at he
  cases hd : decodeReference r with
  | error e => rw [hd] at he; simp at he
  | ok s =>
    rw [hd] at he
    exact textEvent_keeps st s st2 he

theorem parseComment_props (input : Str) (pt : Nat) (st : HState) :
    NoNoElem (parseComment input pt st) ∧ KeepsStack (parseComment input pt st) st.stack := by
  unfold parseComment
  constructor
  · apply tryPM_ne; intro _ _
    apply tryPM_ne; intro _ _
    apply tryPM_ne; intro _ _
    simp [NoNoElem]
  · apply tryPM_keeps _ _ _ _ rfl; intro _ _
    apply tryPM_keeps _ _ _ _ rfl; intro text _
    apply tryPM_keeps _ _ _ _ rfl; intro _ p3
    intro r' st' he
    obtain ⟨-, rfl⟩ := Prod.mk.inj (Except.ok.inj he)
    exact commentEvent_stack st text

theorem parsePi_props (input : Str) (pt : Nat) (st : HState) :
    NoNoElem (parsePi input pt st) ∧ KeepsStack (parsePi input pt st) st.stack := by
  unfold parsePi
  constructor
  · apply tryPM_ne; intro _ _
    apply tryPM_ne; intro target _
    apply tryPM_ne; intro value _
    apply tryPM_ne; intro _ _
    split <;> simp [NoNoElem]
  · apply tryPM_keeps _ _ _ _ rfl; intro _ _
    apply tryPM_keeps _ _ _ _ rfl; intro target _
    apply tryPM_keeps _ _ _ _ rfl; intro value _
    apply tryPM_keeps _ _ _ _ rfl; intro _ p4
    split
    · intro r' st' he; simp at he
    · intro r' st' he
      obtain ⟨-, rfl⟩ := Prod.mk.inj (Except.ok.inj he)
      exact piEvent_stack st target value

theorem parseMisc_props (input : Str) (pt : Nat) (st : HState) :
    NoNoElem (parseMisc input pt st) ∧ KeepsStack (parseMisc input pt st) st.stack := by
  unfold parseMisc
  constructor
  · apply orElseM_ne
    · exact (parseComment_props input pt st).1
    · intro r st2 _
      apply orElseM_ne
      · exact (parsePi_props input pt st2).1
      · intro r2 st3 _
        exact (liftP_props _ st3).1
  · apply orElseM_keeps _ _ _ (parseComment_props input pt st).2
    intro r st2 _
    apply orElseM_keeps _ _ _ (parsePi_props input pt st2).2
    intro r2 st3 _
    exact (liftP_props _ st3).2

theorem parseMiscs_props (input : Str) (fuel pt : Nat) (st : HState) :
    NoNoElem (parseMiscs input fuel pt st) ∧ KeepsStack (parseMiscs input fuel pt st) st.stack := by
  unfold parseMiscs zeroOrMoreM
  have h := zeroOrMoreAux_plain (parseMisc input)
    (fun pt st => (parseMisc_props input pt st).1)
    (fun pt st => (parseMisc_props input pt st).2) fuel [] pt st
  exact ⟨mapRes_ne _ _ h.1, mapRes_keeps _ _ _ h.2⟩

theorem parseProlog_props (input : Str) (fuel pt : Nat) (st : HState) :
    NoNoElem (parseProlog input fuel pt st) ∧ KeepsStack (parseProlog input fuel pt st) st.stack := by
  unfold parseProlog
  exact parseMiscs_props input fuel _ st

theorem parseAttributeLiteral_props (input : Str) (quote : Char) (pt : Nat) (st : HState) :
    NoNoElem (parseAttributeLiteral input quote pt st) ∧
    KeepsStack (parseAttributeLiteral input quote pt st) st.stack := by
  unfold parseAttributeLiteral
  constructor
  · apply tryPM_ne; intro val p
    apply withEvent_ne
    · exact (attributeValueEvent_props st _).1
    · intro st2 _; simp [NoNoElem]
  · apply tryPM_keeps _ _ _ _ rfl; intro val p
    apply withEvent_keeps
    · intro st2 hm; exact (attributeValueEvent_props st _).2 st2 hm
    · intro st2 _ r' st' he
      obtain ⟨-, rfl⟩ := Prod.mk.inj (Except.ok.inj he)
      rfl

theorem parseAttributeReference_props (input : Str) (pt : Nat) (st : HState) :
    NoNoElem (parseAttributeReference input pt st) ∧
    KeepsStack (parseAttributeReference input pt st) st.stack := by
  unfold parseAttributeReference
  constructor
  · apply tryPM_ne; intro r p
    apply withEvent_ne
    · exact (attributeValueEvent_props st _).1
    · intro st2 _; simp [NoNoElem]
  · apply tryPM_keeps _ _ _ _ rfl; intro r p
    apply withEvent_keeps
    · intro st2 hm; exact (attributeValueEvent_props st _).2 st2 hm
    · intro st2 _ r' st' he
      obtain ⟨-, rfl⟩ := Prod.mk.inj (Except.ok.inj he)
      rfl

theorem parseAttributeValues_props (input : Str) (fuel : Nat) (quote : Char)
    (pt : Nat) (st : HState) :
    NoNoElem (parseAttributeValues input fuel quote pt st) ∧
    KeepsStack (parseAttributeValues input fuel quote pt st) st.stack := by
  unfold parseAttributeValues zeroOrMoreM
  have h := zeroOrMoreAux_plain
    (fun pt st => orElseM (parseAttributeLiteral input quote pt st) (fun st =>
      parseAttributeReference input pt st))
    (fun pt st => orElseM_ne _ _ (parseAttributeLiteral_props input quote pt st).1
      (fun r st2 _ => (parseAttributeReference_props input pt st2).1))
    (fun pt st => orElseM_keeps _ _ _ (parseAttributeLiteral_props input quote pt st).2
      (fun r st2 _ => (parseAttributeReference_props input pt st2).2))
    fuel [] pt st
  exact ⟨mapRes_ne _ _ h.1, mapRes_keeps _ _ _ h.2⟩

theorem parseOneQuotedValueM_props (input : Str) (quote : Char)
    (f : Nat → HState → M (PResult α × HState))
    (hne : ∀ pt st, NoNoElem (f pt st))
    (hk : ∀ pt st, KeepsStack (f pt st) st.stack) (pt : Nat) (st : HState) :
    NoNoElem (parseOneQuotedValueM input quote f pt st) ∧
    KeepsStack (parseOneQuotedValueM input quote f pt st) st.stack := by
  unfold parseOneQuotedValueM
  constructor
  · apply tryPM_ne; intro _ p
    apply bindPartialM_ne _ _ (hne p st)
    intro v saved p2 st2 _
    simp [NoNoElem]
  · apply tryPM_keeps _ _ _ _ rfl; intro _ p
    apply bindPartialM_keeps _ _ _ (hk p st)
    intro v saved p2 st2 r' st' he
    obtain ⟨-, rfl⟩ := Prod.mk.inj (Except.ok.inj he)
    rfl

theorem parseQuotedValueM_props (input : Str)
    (f : Char → Nat → HState → M (PResult α × HState))
    (hne : ∀ q pt st, NoNoElem (f q pt st))
    (hk : ∀ q pt st, KeepsStack (f q pt st) st.stack) (pt : Nat) (st : HState) :
    NoNoElem (parseQuotedValueM input f pt st) ∧
    KeepsStack (parseQuotedValueM input f pt st) st.stack := by
  unfold parseQuotedValueM
  constructor
  · apply orElseM_ne
    · exact (parseOneQuotedValueM_props input _ _ (hne _) (hk _) pt st).1
    · intro r st2 _
      exact (parseOneQuotedValueM_props input _ _ (hne _) (hk _) pt st2).1
  · apply orElseM_keeps _ _ _
      (parseOneQuotedValueM_props input _ _ (hne _) (hk _) pt st).2
    intro r st2 _
    exact (parseOneQuotedValueM_props input _ _ (hne _) (hk _) pt st2).2

theorem parseAttribute_props (input : Str) (fuel : Nat) (pt : Nat) (st : HState) :
    NoNoElem (parseAttribute input fuel pt st) ∧
    KeepsStack (parseAttribute input fuel pt st) st.stack := by
  unfold parseAttribute
  constructor
  · apply tryPM_ne; intro _ _
    apply tryPM_ne; intro name _
    apply tryPM_ne; intro _ p2
    have hq := parseQuotedValueM_props input
      (fun quote => parseAttributeValues input fuel quote)
      (fun q pt st => (parseAttributeValues_props input fuel q pt st).1)
      (fun q pt st => (parseAttributeValues_props input fuel q pt st).2)
      p2 (attributeStartEvent st name)
    cases hqe : parseQuotedValueM input
        (fun quote => parseAttributeValues input fuel quote) p2
        (attributeStartEvent st name) with
    | error e =>
      dsimp only
      intro he
      exact hq.1 (by rw [hqe, Except.error.inj he])
    | ok rs =>
      obtain ⟨r, st2⟩ := rs
      cases r <;> simp [NoNoElem]
  · apply tryPM_keeps _ _ _ _ rfl; intro _ _
    apply tryPM_keeps _ _ _ _ rfl; intro name _
    apply tryPM_keeps _ _ _ _ rfl; intro _ p2
    have hq := parseQuotedValueM_props input
      (fun quote => parseAttributeValues input fuel quote)
      (fun q pt st => (parseAttributeValues_props input fuel q pt st).1)
      (fun q pt st => (parseAttributeValues_props input fuel q pt st).2)
      p2 (attributeStartEvent st name)
    cases hqe : parseQuotedValueM input
        (fun quote => parseAttributeValues input fuel quote) p2
        (attributeStartEvent st name) with
    | error e => intro r' st' he; simp at he
    | ok rs =>
      obtain ⟨r, st2⟩ := rs
      have hst2 : st2.stack = st.stack := hq.2 r st2 hqe
      cases r with
      | success v p =>
        dsimp only
        intro r' st' he
        obtain ⟨-, rfl⟩ := Prod.mk.inj (Except.ok.inj he)
        exact hst2
      | stalled v fp p =>
        dsimp only
        intro r' st' he
        obtain ⟨-, rfl⟩ := Prod.mk.inj (Except.ok.inj he)
        exact hst2
      | failure fp =>
        dsimp only
        intro r' st' he
        obtain ⟨-, rfl⟩ := Prod.mk.inj (Except.ok.inj he)
        exact hst2

theorem parseAttributes_props (input : Str) (fuel : Nat) (pt : Nat) (st : HState) :
    NoNoElem (parseAttributes input fuel pt st) ∧
    KeepsStack (parseAttributes input fuel pt st) st.stack := by
  unfold parseAttributes zeroOrMoreM
  have h := zeroOrMoreAux_plain (parseAttribute input fuel)
    (fun pt st => (parseAttribute_props input fuel pt st).1)
    (fun pt st => (parseAttribute_props input fuel pt st).2) fuel [] pt st
  exact ⟨mapRes_ne _ _ h.1, mapRes_keeps _ _ _ h.2⟩

theorem parseCharData_keeps (input : Str) (pt : Nat) (st : HState) :
    KeepsStack (parseCharData input pt st) st.stack := by
  unfold parseCharData
  apply tryPM_keeps _ _ _ _ rfl; intro text p
  apply withEvent_keeps
  · intro st2 hm; exact textEvent_keeps st text st2 hm
  · intro st2 _ r' st' he
    obtain ⟨-, rfl⟩ := Prod.mk.inj (Except.ok.inj he)
    rfl

theorem parseCharData_ne (input : Str) (pt : Nat) (st : HState) (h : st.stack ≠ []) :
    NoNoElem (parseCharData input pt st) := by
  unfold parseCharData
  apply tryPM_ne; intro text p
  apply withEvent_ne
  · rcases textEvent_cases st text with ⟨-, hnil⟩ | ⟨st2, hok, -⟩
    · exact absurd hnil h
    · rw [hok]; simp
  · intro st2 _; simp [NoNoElem]

theorem parseCdata_keeps (input : Str) (pt : Nat) (st : HState) :
    KeepsStack (parseCdata input pt st) st.stack := by
  unfold parseCdata
  apply tryPM_keeps _ _ _ _ rfl; intro _ _
  apply tryPM_keeps _ _ _ _ rfl; intro text _
  apply tryPM_keeps _ _ _ _ rfl; intro _ p3
  apply withEvent_keeps
  · intro st2 hm; exact textEvent_keeps st text st2 hm
  · intro st2 _ r' st' he
    obtain ⟨-, rfl⟩ := Prod.mk.inj (Except.ok.inj he)
    rfl

theorem parseCdata_ne (input : Str) (pt : Nat) (st : HState) (h : st.stack ≠ []) :
    NoNoElem (parseCdata input pt st) := by
  unfold parseCdata
  apply tryPM_ne; intro _ _
  apply tryPM_ne; intro text _
  apply tryPM_ne; intro _ _
  apply withEvent_ne
  · rcases textEvent_cases st text with ⟨-, hnil⟩ | ⟨st2, hok, -⟩
    · exact absurd hnil h
    · rw [hok]; simp
  · intro st2 _; simp [NoNoElem]

theorem parseContentReference_keeps (input : Str) (pt : Nat) (st : HState) :
    KeepsStack (parseContentReference input pt st) st.stack := by
  unfold parseContentReference
  apply tryPM_keeps _ _ _ _ rfl; intro r p
  apply withEvent_keeps
  · intro st2 hm; exact referenceEvent_keeps st r st2 hm
  · intro st2 _ r' st' he
    obtain ⟨-, rfl⟩ := Prod.mk.inj (Except.ok.inj he)
    rfl

theorem parseContentReference_ne (input : Str) (pt : Nat) (st : HState) (h : st.stack ≠ []) :
    NoNoElem (parseContentReference input pt st) := by
  unfold parseContentReference
  apply tryPM_ne; intro r p
  apply withEvent_ne
  · exact (referenceEvent_props st r h).1
  · intro st2 _; simp [NoNoElem]

/-- The main stack invariant of the recursive grammar knot, by induction
on fuel: every production leaves the element stack at least as deep as it
found it, and no production reaches the fatal no-open-element branch —
unconditionally for the element production (which opens its own element
before any text event), and for the content productions provided an
element is open on entry. -/
theorem parseG_props (input : Str) : ∀ (fuel : Nat) (g : GrammarAt) (pt : Nat) (st : HState),
    GrowsFrom (parseG input fuel g pt st) st.stack ∧
    ((g = GrammarAt.element ∨ st.stack ≠ []) → NoNoElem (parseG input fuel g pt st)) := by
  intro fuel
  induction fuel with
  | zero =>
    intro g pt st
    constructor
    · intro r' st' he
      obtain ⟨-, rfl⟩ : PResult.failure pt = r' ∧ st = st' := by simpa [parseG] using he
      exact le_refl _
    · intro _; simp [parseG, NoNoElem]
  | succ n ih =>
    intro g pt st
    cases g with
    | element =>
      simp only [parseG]
      constructor
      · apply tryPM_grows _ _ _ _ rfl; intro _ p1
        apply tryPM_grows _ _ _ _ rfl; intro name p2
        apply bindPartialM_grows _ _ _
          (keeps_grows (parseAttributes_props input n p2
            (attributesStartEvent (elementStartEvent st name))).2)
        intro v saved p3 st2 _
        apply withEvent_grows
        intro st3 hae
        obtain ⟨i, hpush⟩ := (attributesEndEvent_props st2).2 st3 hae
        have h31 : st3.stack.length = st2.stack.length + 1 := by rw [hpush]; rfl
        intro r' st' he
        cases hoe : orElseM (liftP (parseEmptyElementTail input
            (optNext (consumeSpace input p3) p3)) st3) (fun st =>
            parseG input n (.nonEmptyTail name) (optNext (consumeSpace input p3) p3) st) with
        | error e => rw [hoe] at he; simp at he
        | ok rs =>
          obtain ⟨r5, st5⟩ := rs
          have hg5 : st3.stack.length ≤ st5.stack.length :=
            orElseM_grows _ _ _ (keeps_grows (liftP_props _ st3).2)
              (fun r st4 _ => (ih (.nonEmptyTail name) _ st4).1) r5 st5 hoe
          rw [hoe] at he
          dsimp only at he
          cases hr5 : resumeP saved r5 with
          | success v5 p5 =>
            rw [hr5] at he
            dsimp only at he
            obtain ⟨-, rfl⟩ := Prod.mk.inj (Except.ok.inj he)
            simp only [elementEndEvent, List.length_tail]
            omega
          | stalled v5 fp5 p5 =>
            rw [hr5] at he
            dsimp only at he
            obtain ⟨-, rfl⟩ := Prod.mk.inj (Except.ok.inj he)
            omega
          | failure fp5 =>
            rw [hr5] at he
            dsimp only at he
            obtain ⟨-, rfl⟩ := Prod.mk.inj (Except.ok.inj he)
            omega
      · intro _
        apply tryPM_ne; intro _ p1
        apply tryPM_ne; intro name p2
        apply bindPartialM_ne _ _
          (parseAttributes_props input n p2
            (attributesStartEvent (elementStartEvent st name))).1
        intro v saved p3 st2 _
        apply withEvent_ne
        · exact (attributesEndEvent_props st2).1
        · intro st3 hae
          obtain ⟨i, hpush⟩ := (attributesEndEvent_props st2).2 st3 hae
          have hne3 : st3.stack ≠ [] := by rw [hpush]; simp
          intro he
          cases hoe : orElseM (liftP (parseEmptyElementTail input
              (optNext (consumeSpace input p3) p3)) st3) (fun st =>
              parseG input n (.nonEmptyTail name) (optNext (consumeSpace input p3) p3) st) with
          | error e =>
            rw [hoe] at he
            dsimp only at he
            refine orElseM_ne
              (liftP (parseEmptyElementTail input (optNext (consumeSpace input p3) p3)) st3)
              (fun st => parseG input n (.nonEmptyTail name)
                (optNext (consumeSpace input p3) p3) st)
              (liftP_props (parseEmptyElementTail input
                (optNext (consumeSpace input p3) p3)) st3).1 ?_
              (by rw [hoe, Except.error.inj he])
            intro r st4 hm4
            have hst4 : st4.stack = st3.stack :=
              (liftP_props (parseEmptyElementTail input
                (optNext (consumeSpace input p3) p3)) st3).2 r st4 hm4
            exact (ih (.nonEmptyTail name) _ st4).2 (Or.inr (by rw [hst4]; exact hne3))
          | ok rs =>
            obtain ⟨r5, st5⟩ := rs
            rw [hoe] at he
            dsimp only at he
            cases hr5 : resumeP saved r5 with
            | success v5 p5 => rw [hr5] at he; simp at he
            | stalled v5 fp5 p5 => rw [hr5] at he; simp at he
            | failure fp5 => rw [hr5] at he; simp at he
    | nonEmptyTail name =>
      simp only [parseG]
      constructor
      · apply tryPM_grows _ _ _ _ rfl; intro _ p1
        apply bindPartialM_grows _ _ _ (ih .content p1 st).1
        intro v saved p3 st2 _
        intro r' st' he
        cases hr : resumeP saved (parseElementEnd input p3) with
        | success endName p4 =>
          rw [hr] at he
          dsimp only at he
          split at he
          · obtain ⟨-, rfl⟩ := Prod.mk.inj (Except.ok.inj he)
            exact le_refl _
          · simp at he
        | stalled v4 fp4 p4 =>
          rw [hr] at he
          dsimp only at he
          obtain ⟨-, rfl⟩ := Prod.mk.inj (Except.ok.inj he)
          exact le_refl _
        | failure fp4 =>
          rw [hr] at he
          dsimp only at he
          obtain ⟨-, rfl⟩ := Prod.mk.inj (Except.ok.inj he)
          exact le_refl _
      · intro hp
        have hstk : st.stack ≠ [] := by
          rcases hp with h | h
          · exact absurd h (by simp)
          · exact h
        apply tryPM_ne; intro _ p1
        apply bindPartialM_ne _ _ ((ih .content p1 st).2 (Or.inr hstk))
        intro v saved p3 st2 _
        intro he
        cases hr : resumeP saved (parseElementEnd input p3) with
        | success endName p4 =>
          rw [hr] at he
          dsimp only at he
          split at he <;> simp at he
        | stalled v4 fp4 p4 => rw [hr] at he; simp at he
        | failure fp4 => rw [hr] at he; simp at he
    | content =>
      simp only [parseG, zeroOrMoreM]
      constructor
      · apply bindOpt_grows
        intro p2 st2 hro
        obtain ⟨r0, hcd⟩ := runOptional_state _ _ _ _ hro
        have hst2 : st2.stack = st.stack := parseCharData_keeps input pt st r0 st2 hcd
        apply mapRes_grows
        exact hst2 ▸ zeroOrMoreAux_grows _ (fun pt st => (ih .restOfContent pt st).1) n [] p2 st2
      · intro hp
        have hstk : st.stack ≠ [] := by
          rcases hp with h | h
          · exact absurd h (by simp)
          · exact h
        apply bindOpt_ne
        · intro he
          exact parseCharData_ne input pt st hstk (runOptional_err _ _ _ he)
        · intro p2 st2 hro
          obtain ⟨r0, hcd⟩ := runOptional_state _ _ _ _ hro
          have hst2 : st2.stack = st.stack := parseCharData_keeps input pt st r0 st2 hcd
          apply mapRes_ne
          exact zeroOrMoreAux_grow_ne _
            (fun pt st h2 => (ih .restOfContent pt st).2 (Or.inr h2))
            (fun pt st => (ih .restOfContent pt st).1) n [] p2 st2
            (by rw [hst2]; exact hstk)
    | restOfContent =>
      simp only [parseG]
      have chainGrows : GrowsFrom (orElseM (parseG input n .element pt st) (fun st =>
          orElseM (parseCdata input pt st) (fun st =>
          orElseM (parseContentReference input pt st) (fun st =>
          orElseM (parseComment input pt st) (fun st =>
          parsePi input pt st))))) st.stack := by
        apply orElseM_grows _ _ _ (ih .element pt st).1
        intro r st2 _
        apply orElseM_grows _ _ _ (keeps_grows (parseCdata_keeps input pt st2))
        intro r st3 _
        apply orElseM_grows _ _ _ (keeps_grows (parseContentReference_keeps input pt st3))
        intro r st4 _
        apply orElseM_grows _ _ _ (keeps_grows (parseComment_props input pt st4).2)
        intro r st5 _
        exact keeps_grows (parsePi_props input pt st5).2
      constructor
      · intro r' st' he
        cases hc : orElseM (parseG input n .element pt st) (fun st =>
            orElseM (parseCdata input pt st) (fun st =>
            orElseM (parseContentReference input pt st) (fun st =>
            orElseM (parseComment input pt st) (fun st =>
            parsePi input pt st)))) with
        | error e => rw [hc] at he; simp at he
        | ok rs =>
          obtain ⟨r6, st6⟩ := rs
          have hg6 : st.stack.length ≤ st6.stack.length := chainGrows r6 st6 hc
          rw [hc] at he
          cases r6 with
          | success v6 p6 =>
            dsimp only at he
            cases hro : runOptional (parseCharData input p6 st6) p6 with
            | error e => rw [hro] at he; simp [bindOpt] at he
            | ok ps =>
              obtain ⟨p7, st7⟩ := ps
              obtain ⟨r0, hcd⟩ := runOptional_state _ _ _ _ hro
              have hst7 : st7.stack = st6.stack := parseCharData_keeps input p6 st6 r0 st7 hcd
              rw [hro] at he
              simp only [bindOpt] at he
              obtain ⟨-, rfl⟩ := Prod.mk.inj (Except.ok.inj he)
              rw [hst7]
              exact hg6
          | stalled v6 fp6 p6 =>
            dsimp only at he
            obtain ⟨-, rfl⟩ := Prod.mk.inj (Except.ok.inj he)
            exact hg6
          | failure fp6 =>
            dsimp only at he
            obtain ⟨-, rfl⟩ := Prod.mk.inj (Except.ok.inj he)
            exact hg6
      · intro hp
        have hstk : st.stack ≠ [] := by
          rcases hp with h | h
          · exact absurd h (by simp)
          · exact h
        have hlen1 : 1 ≤ st.stack.length := by
          cases hs : st.stack with
          | nil => exact absurd hs hstk
          | cons a t => simp
        have nonNil : ∀ st2 : HState, st.stack.length ≤ st2.stack.length → st2.stack ≠ [] := by
          intro st2 hle hnil
          rw [hnil] at hle
          simp only [List.length_nil] at hle
          omega
        have chainNE : NoNoElem (orElseM (parseG input n .element pt st) (fun st =>
            orElseM (parseCdata input pt st) (fun st =>
            orElseM (parseContentReference input pt st) (fun st =>
            orElseM (parseComment input pt st) (fun st =>
            parsePi input pt st))))) := by
          apply orElseM_ne _ _ ((ih .element pt st).2 (Or.inl rfl))
          intro r st2 hm2
          have h2 : st2.stack ≠ [] := nonNil st2 ((ih .element pt st).1 r st2 hm2)
          apply orElseM_ne _ _ (parseCdata_ne input pt st2 h2)
          intro r st3 hm3
          have h3 : st3.stack ≠ [] := by
            rw [parseCdata_keeps input pt st2 r st3 hm3]; exact h2
          apply orElseM_ne _ _ (parseContentReference_ne input pt st3 h3)
          intro r st4 hm4
          apply orElseM_ne _ _ (parseComment_props input pt st4).1
          intro r st5 _
          exact (parsePi_props input pt st5).1
        intro he
        cases hc : orElseM (parseG input n .element pt st) (fun st =>
            orElseM (parseCdata input pt st) (fun st =>
            orElseM (parseContentReference input pt st) (fun st =>
            orElseM (parseComment input pt st) (fun st =>
            parsePi input pt st)))) with
        | error e =>
          rw [hc] at he
          exact chainNE (by rw [hc, Except.error.inj he])
        | ok rs =>
          obtain ⟨r6, st6⟩ := rs
          have hg6 : st.stack.length ≤ st6.stack.length := chainGrows r6 st6 hc
          rw [hc] at he
          cases r6 with
          | success v6 p6 =>
            dsimp only at he
            cases hro : runOptional (parseCharData input p6 st6) p6 with
            | error e =>
              have := runOptional_err _ _ _ hro
              rw [hro] at he
              simp only [bindOpt] at he
              rw [Except.error.inj he] at this
              exact parseCharData_ne input p6 st6 (nonNil st6 hg6) this
            | ok ps =>
              obtain ⟨p7, st7⟩ := ps
              rw [hro] at he
              simp [bindOpt] at he
          | stalled v6 fp6 p6 => dsimp only at he; simp at he
          | failure fp6 => dsimp only at he; simp at he

theorem parseDocument_ne (input : Str) (fuel pt : Nat) (st : HState) :
    NoNoElem (parseDocument input fuel pt st) := by
  unfold parseDocument
  apply bindPartialM_ne _ _ (parseProlog_props input fuel pt st).1
  intro v saved p2 st2 _
  intro he
  cases hPE : parseElement input fuel p2 st2 with
  | error e =>
    rw [hPE] at he
    exact (parseG_props input fuel .element p2 st2).2 (Or.inl rfl)
      (by unfold parseElement at hPE; rw [hPE, Except.error.inj he])
  | ok rs =>
    obtain ⟨r, st3⟩ := rs
    rw [hPE] at he
    dsimp only at he
    cases hr : resumeP saved r with
    | success v3 p3 =>
      rw [hr] at he
      dsimp only at he
      cases hro : runOptional (parseMiscs input fuel p3 st3) p3 with
      | error e =>
        have := runOptional_err _ _ _ hro
        rw [hro] at he
        simp only [bindOpt] at he
        rw [Except.error.inj he] at this
        exact (parseMiscs_props input fuel p3 st3).1 this
      | ok ps =>
        obtain ⟨p4, st4⟩ := ps
        rw [hro] at he
        simp [bindOpt] at he
    | stalled v3 fp3 p3 => rw [hr] at he; simp at he
    | failure fp3 => rw [hr] at he; simp at he

theorem parse_ne (input : Str) : parse input ≠ .error Fatal.noElementToAppend := by
  unfold parse
  intro he
  cases hd : parseDocument input (parseFuel input) 0 initialState with
  | error e =>
    rw [hd] at he
    exact parseDocument_ne input (parseFuel input) 0 initialState
      (by rw [hd, Except.error.inj he])
  | ok rs =>
    obtain ⟨r, st⟩ := rs
    rw [hd] at he
    cases r <;> simp at he

/-! ## Claim theorems -/

/-- C5: Reference decoding, shared by attribute values and text content:
amp, lt, gt, apos, quot decode to the characters "&", "<", ">", "'" and
the double quote; any other entity name is fatal; decimal and hex digit
strings are read in base 10 and 16 into a code point mapped to the
corresponding character, an out-of-range code point being fatal; &#62;
decodes to ">", &#x3c; to "<", and &bogus; is fatal. The last conjunct
states that attribute-value fragments run through the same decoder. -/
theorem c5_reference_decoding :
    (decodeReference (.entityReference ("amp".data)) = .ok ("&".data) ∧
     decodeReference (.entityReference ("lt".data)) = .ok ("<".data) ∧
     decodeReference (.entityReference ("gt".data)) = .ok (">".data) ∧
     decodeReference (.entityReference ("apos".data)) = .ok ("'".data) ∧
     decodeReference (.entityReference ("quot".data)) = .ok ("\"".data)) ∧
    (∀ e : Str, e ∉ [("amp".data), ("lt".data), ("gt".data), ("apos".data), ("quot".data)] →
      decodeReference (.entityReference e) = .error (.unknownEntity e)) ∧
    (∀ ds : Str,
      decodeReference (.decimalCharReference ds) =
        if validCodepoint (digitsVal 10 ds) then .ok [Char.ofNat (digitsVal 10 ds)]
        else .error (.invalidCodepoint (digitsVal 10 ds))) ∧
    (∀ hs : Str,
      decodeReference (.hexCharReference hs) =
        if validCodepoint (digitsVal 16 hs) then .ok [Char.ofNat (digitsVal 16 hs)]
        else .error (.invalidCodepoint (digitsVal 16 hs))) ∧
    decodeReference (.decimalCharReference ("62".data)) = .ok (">".data) ∧
    decodeReference (.hexCharReference ("3c".data)) = .ok ("<".data) ∧
    decodeReference (.entityReference ("bogus".data)) = .error (.unknownEntity ("bogus".data)) ∧
    (∀ r : Reference, convertAttrValues [.referenceAttributeValue r] =
      (decodeReference r).map (fun s => s)) ∧
    parseStr "<m>&bogus;</m>" = .error (.unknownEntity ("bogus".data)) := by
  refine ⟨by decide, ?_, ?_, ?_, by decide, by decide, by decide, ?_, by decide⟩
  · intro e he
    simp only [List.mem_cons, List.mem_singleton, not_or] at he
    obtain ⟨h1, h2, h3, h4, h5, -⟩ := he
    simp [decodeReference, h1, h2, h3, h4, h5]
  · intro ds; rfl
  · intro hs; rfl
  · intro r
    cases h : decodeReference r with
    | ok s => simp [convertAttrValues, ingestAttrValues, h, Except.map]
    | error e => simp [convertAttrValues, ingestAttrValues, h, Except.map]

/-- C5 witness: an entity name outside the five predefined ones is a
fatal encoding error. -/
theorem c5_witness :
    decodeReference (.entityReference ("xyz".data)) = .error (.unknownEntity ("xyz".data)) :=
  c5_reference_decoding.2.1 ("xyz".data) (by decide)

/-- C9: parse is deterministic: equal inputs yield equal results — equal
documents on success, the same offset on failure. In this embedding parse
is a pure function of the input, so this holds definitionally; the Rust
caveat about allocation identity has no counterpart here. -/
theorem c9_parse_deterministic :
    ∀ s t : Str, s = t →
      parse s = parse t ∧
      (∀ d1 d2, parse s = .ok (.ok d1) → parse t = .ok (.ok d2) → d1 = d2) ∧
      (∀ n1 n2, parse s = .ok (.error n1) → parse t = .ok (.error n2) → n1 = n2) := by
  rintro s t rfl
  refine ⟨rfl, ?_, ?_⟩
  · intro d1 d2 h1 h2; rw [h1] at h2; exact Except.ok.inj (Except.ok.inj h2)
  · intro n1 n2 h1 h2; rw [h1] at h2; exact Except.error.inj (Except.ok.inj h2)

/-- C9 witness: two invocations on the same concrete input agree. -/
theorem c9_witness : parse ("<a/>".data) = parse ("<a/>".data) :=
  (c9_parse_deterministic ("<a/>".data) ("<a/>".data) rfl).1

/-- C7: whenever parse_document succeeds, parse returns the hydrated
document, with no check that the input was fully consumed; concretely,
an input with trailing garbage after a complete document still parses,
the document production stopping at offset 4 of the 8-character input. -/
theorem c7_full_consumption_not_required :
    (∀ (input : Str) (v : Unit) (p : Nat) (st' : HState),
      parseDocument input (parseFuel input) 0 initialState = .ok (.success v p, st') →
      parse input = .ok (.ok st'.doc)) ∧
    parse ("<a/><<<<".data) =
      .ok (.ok ⟨[⟨none, "a".data, none, [], [], [], none⟩], [], [], [], [.elem 0]⟩) ∧
    parseDocument ("<a/><<<<".data) (parseFuel ("<a/><<<<".data)) 0 initialState =
      .ok (.success () 4,
        ⟨⟨[⟨none, "a".data, none, [], [], [], none⟩], [], [], [], [.elem 0]⟩, [], none, []⟩) ∧
    ("<a/><<<<".data).length = 8 := by
  refine ⟨?_, by decide, by decide, by decide⟩
  intro input v p st' h
  unfold parse
  rw [h]

/-- C7 witness: the general direction applied to the concrete input with
four characters of trailing garbage. -/
theorem c7_witness : parse ("<a/><<<<".data) =
    .ok (.ok ⟨[⟨none, "a".data, none, [], [], [], none⟩], [], [], [], [.elem 0]⟩) :=
  c7_full_consumption_not_required.1 ("<a/><<<<".data) () 4
    ⟨⟨[⟨none, "a".data, none, [], [], [], none⟩], [], [], [], [.elem 0]⟩, [], none, []⟩
    (by decide)

/-- C1: when the alternatives of an alternation all fail, the failure with
the greatest input offset is reported (most interesting failure wins),
both for the pure alternation and for the alternation over sink-threading
computations; the last conjunct fixes that the reported offset is the
greater of the two. -/
theorem c1_most_interesting_failure :
    (∀ (α : Type) (a b : Nat) (alt : Unit → PResult α), alt () = .failure b →
      orElseP (.failure a) alt = .failure (max a b)) ∧
    (∀ (α : Type) (m : M (PResult α × HState)) (alt : HState → M (PResult α × HState))
      (a b : Nat) (st1 st2 : HState),
      m = .ok (.failure a, st1) → alt st1 = .ok (.failure b, st2) →
      orElseM m alt = .ok (.failure (max a b), st2)) ∧
    (∀ a b : Nat, a ≤ b → max a b = b) := by
  refine ⟨?_, ?_, fun a b h => max_eq_right h⟩
  · intro α a b alt h
    simp [orElseP, h]
  · intro α m alt a b st1 st2 h1 h2
    subst h1
    simp [orElseM, h2]

/-- C1 witness: an alternation whose first branch fails at offset 3 and
whose second fails at offset 7 reports offset 7. -/
theorem c1_witness :
    orElseM (pure ((PResult.failure 3 : PResult Unit), initialState))
      (fun st => pure (.failure 7, st)) = .ok (.failure 7, initialState) := by
  have h := c1_most_interesting_failure.2.1 Unit
    (pure (.failure 3, initialState)) (fun st => pure (.failure 7, st))
    3 7 initialState initialState rfl rfl
  simpa using h

/-- C8: in a quoted value whose inner parse stalls (a partial success),
the failure to find the closing quote is combined with the stalled
failure point by the greater-offset rule; and the spec's concrete
unterminated-attribute input fails at offset 18. -/
theorem c8_unterminated_quote_offset :
    (∀ (α : Type) (input : Str) (quote : Char)
      (f : Nat → HState → M (PResult α × HState))
      (pt pt1 : Nat) (st : HState) (v : α) (fp p : Nat) (st' : HState),
      consumeLiteral input [quote] pt = .success () pt1 →
      f pt1 st = .ok (.stalled v fp p, st') →
      consumeLiteral input [quote] p = .failure p →
      parseOneQuotedValueM input quote f pt st = .ok (.failure (max fp p), st')) ∧
    parse ("<hi oops='value />".data) = .ok (.error 18) := by
  refine ⟨?_, by decide⟩
  intro α input quote f pt pt1 st v fp p st' h1 h2 h3
  unfold parseOneQuotedValueM
  rw [h1]
  simp only [tryPM]
  rw [h2]
  simp only [bindPartialM]
  rw [h3]
  simp [resumeP, combineFail, pmap]

/-- C8 witness: the combining rule applied at a concrete stalled inner
parse whose failure point and closing-quote failure point are both 2. -/
theorem c8_witness :
    parseOneQuotedValueM ("'ab".data) '\''
      (fun _ st => pure (.stalled () 2 2, st)) 0 initialState =
      .ok (.failure 2, initialState) := by
  have h := c8_unterminated_quote_offset.1 Unit ("'ab".data) '\''
    (fun _ st => pure (.stalled () 2 2, st)) 0 1 initialState () 2 2 initialState
    (by decide) rfl (by decide)
  simpa using h

/-- C10: the fatal "No element to append to" branch fires exactly when a
text (or reference, which appends via the same path) event arrives with no
open element, and that branch is unreachable through parse on every input:
the grammar delivers text and reference events only while at least one
element is open, because top-level misc admits only comments, processing
instructions and whitespace, and char data is produced only inside element
content. -/
theorem c10_no_element_branch_unreachable :
    (∀ (st : HState) (t : Str),
      textEvent st t = .error Fatal.noElementToAppend ↔ st.stack = []) ∧
    (∀ input : Str, parse input ≠ .error Fatal.noElementToAppend) := by
  constructor
  · intro st t
    constructor
    · intro he
      rcases textEvent_cases st t with ⟨-, hnil⟩ | ⟨st', hok, -⟩
      · exact hnil
      · rw [hok] at he; exact absurd he (by simp)
    · intro hnil
      obtain ⟨d, stk, el, ats⟩ := st
      dsimp only at hnil
      subst hnil
      rfl
  · exact parse_ne

/-- C10 witness: the no-open-element branch itself is reachable when the
sink is driven directly with an empty stack, isolating what the theorem
proves unreachable through parse. -/
theorem c10_witness :
    textEvent initialState ("x".data) = .error Fatal.noElementToAppend :=
  (c10_no_element_branch_unreachable.1 initialState ("x".data)).mpr rfl

/-- C2: at attributes_end, an element whose start-tag name has a prefix
resolves it first against the mapping built from its own xmlns:*
attributes, and only when absent there against the stack of enclosing
in-construction elements (innermost first, via the document builder's
ancestor walk); when neither yields a URI the parse aborts fatally. The
three general conjuncts show: the stack fallback, the fatal error, and
own-mapping priority (the resolved URI comes from the element's own
declaration whatever the stack holds); the last conjunct is the spec's
inheritance example, where world resolves to outer without declaring
it. -/
theorem c2_ns_resolution_order :
    (∀ (st : HState) (p l : Str) (i : Nat) (rest : List Nat) (u : Str),
      st.element = some ⟨some p, l⟩ → st.attributes = [] →
      st.stack = i :: rest → i < st.doc.elements.length →
      elemNsLookup st.doc (st.doc.elements.length + 1) i p = some u →
      ∃ st', attributesEndEvent st = .ok st' ∧
        st'.stack = st.doc.elements.length :: st.stack ∧
        ((st'.doc.elements.get? st.doc.elements.length).map elemIdProj) =
          some (some u, l, some p)) ∧
    (∀ (st : HState) (p l : Str),
      st.element = some ⟨some p, l⟩ → st.attributes = [] →
      nsUriForPfxStack st p = none →
      attributesEndEvent st = .error (.unknownNsPfx p)) ∧
    (∀ (st : HState) (p l : Str) (vs : List AttributeValue) (u : Str),
      st.element = some ⟨some p, l⟩ →
      st.attributes = [⟨⟨some ("xmlns".data), p⟩, vs⟩] →
      convertAttrValues vs = .ok u →
      ∃ st', attributesEndEvent st = .ok st' ∧
        st'.stack = st.doc.elements.length :: st.stack ∧
        ((st'.doc.elements.get? st.doc.elements.length).map elemIdProj) =
          some (some u, l, some p)) ∧
    parseStr "<ns1:hello xmlns:ns1='outer'><ns1:world/></ns1:hello>" = .ok (.ok
      ⟨[⟨some ("outer".data), "hello".data, some ("ns1".data),
          [("ns1".data, "outer".data)], [], [.elem 1], none⟩,
        ⟨some ("outer".data), "world".data, some ("ns1".data), [], [], [], some 0⟩],
        [], [], [], [.elem 0]⟩) := by
  refine ⟨?_, ?_, ?_, by decide⟩
  · intro st p l i rest u h1 h2 h3 hlt h5
    obtain ⟨d, stk, el, attrs⟩ := st
    dsimp only at h1 h2 h3 h5 hlt ⊢
    subst h1; subst h2; subst h3
    refine ⟨⟨addChild (setPreferredPfxElem (createElement d (some u) l).1
        d.elements.length (some p)) i (.elem d.elements.length),
        d.elements.length :: i :: rest, none, []⟩, ?_, rfl, ?_⟩
    · simp [attributesEndEvent, buildMappings, resolvePfx, assocLookup,
        nsUriForPfxStack, h5, createElement, finishElement, appendToEither,
        setOrdinaryAttrs, List.partition_eq_filter_filter, List.filter]
    · rw [addChild_get_idProj]
      simp [setPreferredPfxElem, updElem, createElement, listUpd_concat,
        List.getElem?_concat_length, elemIdProj]
  · intro st p l h1 h2 h3
    obtain ⟨d, stk, el, attrs⟩ := st
    dsimp only at h1 h2 h3 ⊢
    subst h1; subst h2
    cases stk with
    | nil =>
      simp [attributesEndEvent, buildMappings, resolvePfx, assocLookup,
        nsUriForPfxStack, List.partition_eq_filter_filter, List.filter]
    | cons i rest =>
      simp only [nsUriForPfxStack] at h3
      simp [attributesEndEvent, buildMappings, resolvePfx, assocLookup,
        nsUriForPfxStack, h3, List.partition_eq_filter_filter, List.filter]
  · intro st p l vs u h1 h2 h4
    obtain ⟨d, stk, el, attrs⟩ := st
    dsimp only at h1 h2 ⊢
    subst h1; subst h2
    cases stk with
    | nil =>
      refine ⟨⟨{ registerPfx (setPreferredPfxElem (createElement d (some u) l).1
          d.elements.length (some p)) d.elements.length p u with
          rootChildren := d.rootChildren ++ [.elem d.elements.length] },
          [d.elements.length], none, []⟩, ?_, rfl, ?_⟩
      · simp +decide [attributesEndEvent, buildMappings, h4, insertReplace,
          resolvePfx, assocLookup, finishElement, appendToEither,
          setOrdinaryAttrs, List.partition_eq_filter_filter, List.filter,
          registerPfx, setPreferredPfxElem, createElement, updElem, listUpd_concat]
      · simp [registerPfx, setPreferredPfxElem, updElem, createElement,
          listUpd_concat, List.getElem?_concat_length, elemIdProj]
    | cons i rest =>
      refine ⟨⟨addChild (registerPfx (setPreferredPfxElem (createElement d (some u) l).1
          d.elements.length (some p)) d.elements.length p u) i (.elem d.elements.length),
          d.elements.length :: i :: rest, none, []⟩, ?_, rfl, ?_⟩
      · simp +decide [attributesEndEvent, buildMappings, h4, insertReplace,
          resolvePfx, assocLookup, finishElement, appendToEither,
          setOrdinaryAttrs, List.partition_eq_filter_filter, List.filter,
          registerPfx, setPreferredPfxElem, createElement, updElem, listUpd_concat]
      · rw [addChild_get_idProj]
        simp [registerPfx, setPreferredPfxElem, updElem, createElement,
          listUpd_concat, List.getElem?_concat_length, elemIdProj]

/-- C2 witness: the fatal direction applied to a staged element with an
undeclared prefix and no enclosing elements. -/
theorem c2_witness :
    attributesEndEvent ⟨emptyDoc, [], some ⟨some ("q".data), "a".data⟩, []⟩ =
      .error (.unknownNsPfx ("q".data)) :=
  c2_ns_resolution_order.2.1 ⟨emptyDoc, [], some ⟨some ("q".data), "a".data⟩, []⟩
    ("q".data) ("a".data) rfl rfl rfl

theorem takeWhile_append_stop (p : Char → Bool) (v : Str) (x : Char) (rest : Str)
    (hv : ∀ c ∈ v, p c = true) (hx : p x = false) :
    (v ++ x :: rest).takeWhile p = v := by
  induction v with
  | nil => simp [List.takeWhile, hx]
  | cons c t ih =>
    simp only [List.cons_append, List.takeWhile, hv c (by simp)]
    simpa using ih (fun c hc => hv c (by simp [hc]))

theorem runLen_append_stop (p : Char → Bool) (v : Str) (x : Char) (rest : Str)
    (hv : ∀ c ∈ v, p c = true) (hx : p x = false) (hne : v ≠ []) :
    runLen p (v ++ x :: rest) = some v.length := by
  cases v with
  | nil => exact absurd rfl hne
  | cons c t =>
    simp only [runLen, takeRun, takeWhile_append_stop p (c :: t) x rest hv hx]
    simp

theorem pushAttrValue_append (xs : List DeferredAttribute) (a : DeferredAttribute)
    (val : AttributeValue) :
    pushAttrValue (xs ++ [a]) val = some (xs ++ [⟨a.name, a.values ++ [val]⟩]) := by
  induction xs with
  | nil => rfl
  | cons x t ih =>
    cases ht : t ++ [a] with
    | nil => exact absurd ht (by simp)
    | cons y u =>
      simp only [List.cons_append, pushAttrValue, ht]
      rw [← ht, ih]
      rfl

theorem parseAttributeQuoteSq (v : Str) (st : HState)
    (hne : v ≠ []) (hv : ∀ c ∈ v, c ≠ '\'' ∧ c ≠ '"' ∧ c ≠ '&' ∧ c ≠ '<') :
    parseAttribute (scopeAttrInput '\'' v) 5 0 st =
      .ok (.success () (v.length + 9),
        { st with attributes := st.attributes ++
            [⟨⟨none, "scope".data⟩, [.literalAttributeValue v]⟩] }) := by
  have hattr : endOfAttribute '\'' (v ++ ['\'']) = some v.length :=
    runLen_append_stop _ v '\'' []
      (fun c hc => by obtain ⟨h1, h2, h3, h4⟩ := hv c hc; simp [h1, h3, h4])
      (by simp) hne
  have hattr2 : endOfAttribute '\'' ['\''] = none := by decide
  have hdrop2 : (' ' :: 's' :: 'c' :: 'o' :: 'p' :: 'e' :: '=' :: '\'' :: (v ++ ['\''])).drop
      (8 + v.length) = ['\''] := by
    have h := @List.drop_append Char [' ', 's', 'c', 'o', 'p', 'e', '=', '\''] (v ++ ['\'']) v.length
    simpa [List.drop_left] using h
  have hpush := pushAttrValue_append st.attributes ⟨⟨none, ['s', 'c', 'o', 'p', 'e']⟩, []⟩
    (.literalAttributeValue v)
  simp only [List.nil_append] at hpush
  have harith : 8 + v.length + 1 = v.length + 9 := by omega
  simp +decide [parseAttribute, scopeAttrInput, consumeSpace, consumeTo, endOfSpace, runLen,
    takeRun, List.takeWhile, isXmlSpace, consumePrefixedName, consumeNCName, endOfNCName,
    isNCNameStart, isNCNameChar, tryParseP, consumeLiteral, List.isPrefixOf, parseEq, optNext,
    tryPM, parseQuotedValueM, parseOneQuotedValueM, orElseM, bindPartialM, mapRes, withEvent,
    parseAttributeValues, zeroOrMoreM, zeroOrMoreAux, parseAttributeLiteral,
    parseAttributeReference, consumeAttributeValue, hattr, hattr2, hdrop2,
    List.take_left, attributeStartEvent, attributeValueEvent, hpush,
    attributeEndEvent, parseReference, parseEntityRef, parseDecimalCharRef, parseHexCharRef,
    consumeName, endOfName, isNameStart, isNameChar, orElseP, resumeP, combineFail, pmap,
    liftP, harith]

theorem parseAttributeQuoteDq (v : Str) (st : HState)
    (hne : v ≠ []) (hv : ∀ c ∈ v, c ≠ '\'' ∧ c ≠ '"' ∧ c ≠ '&' ∧ c ≠ '<') :
    parseAttribute (scopeAttrInput '"' v) 5 0 st =
      .ok (.success () (v.length + 9),
        { st with attributes := st.attributes ++
            [⟨⟨none, "scope".data⟩, [.literalAttributeValue v]⟩] }) := by
  have hattr : endOfAttribute '"' (v ++ ['"']) = some v.length :=
    runLen_append_stop _ v '"' []
      (fun c hc => by obtain ⟨h1, h2, h3, h4⟩ := hv c hc; simp [h2, h3, h4])
      (by simp) hne
  have hattr2 : endOfAttribute '"' ['"'] = none := by decide
  have hdrop2 : (' ' :: 's' :: 'c' :: 'o' :: 'p' :: 'e' :: '=' :: '"' :: (v ++ ['"'])).drop
      (8 + v.length) = ['"'] := by
    have h := @List.drop_append Char [' ', 's', 'c', 'o', 'p', 'e', '=', '"'] (v ++ ['"']) v.length
    simpa [List.drop_left] using h
  have hpush := pushAttrValue_append st.attributes ⟨⟨none, ['s', 'c', 'o', 'p', 'e']⟩, []⟩
    (.literalAttributeValue v)
  simp only [List.nil_append] at hpush
  have harith : 8 + v.length + 1 = v.length + 9 := by omega
  simp +decide [parseAttribute, scopeAttrInput, consumeSpace, consumeTo, endOfSpace, runLen,
    takeRun, List.takeWhile, isXmlSpace, consumePrefixedName, consumeNCName, endOfNCName,
    isNCNameStart, isNCNameChar, tryParseP, consumeLiteral, List.isPrefixOf, parseEq, optNext,
    tryPM, parseQuotedValueM, parseOneQuotedValueM, orElseM, bindPartialM, mapRes, withEvent,
    parseAttributeValues, zeroOrMoreM, zeroOrMoreAux, parseAttributeLiteral,
    parseAttributeReference, consumeAttributeValue, hattr, hattr2, hdrop2,
    List.take_left, attributeStartEvent, attributeValueEvent, hpush,
    attributeEndEvent, parseReference, parseEntityRef, parseDecimalCharRef, parseHexCharRef,
    consumeName, endOfName, isNameStart, isNameChar, orElseP, resumeP, combineFail, pmap,
    liftP, harith]

/-- C6: quote-style independence. For every non-empty attribute value
containing neither quote character, no ampersand and no left angle
bracket, the attribute production run on that value in single quotes and
on the same value in double quotes returns identical results, recording
identical attribute values, because quoted-value parsing tries the
single-quote and double-quote bracketings as an alternation around the
same inner parse (the second conjunct, which holds definitionally); in
particular the spec's two hello/scope documents produce equal documents. -/
theorem c6_quote_style_independence :
    (∀ (v : Str) (st : HState), v ≠ [] →
      (∀ c ∈ v, c ≠ '\'' ∧ c ≠ '"' ∧ c ≠ '&' ∧ c ≠ '<') →
      parseAttribute (scopeAttrInput '\'' v) 5 0 st =
        parseAttribute (scopeAttrInput '"' v) 5 0 st ∧
      parseAttribute (scopeAttrInput '\'' v) 5 0 st =
        .ok (.success () (v.length + 9),
          { st with attributes := st.attributes ++
              [⟨⟨none, "scope".data⟩, [.literalAttributeValue v]⟩] })) ∧
    (∀ (α : Type) (input : Str) (f : Char → Nat → HState → M (PResult α × HState))
      (pt : Nat) (st : HState),
      parseQuotedValueM input f pt st =
        orElseM (parseOneQuotedValueM input '\'' (f '\'') pt st) (fun st =>
          parseOneQuotedValueM input '"' (f '"') pt st)) ∧
    parseStr "<hello scope='world'/>" = parseStr "<hello scope=\"world\"/>" ∧
    parseStr "<hello scope='world'/>" = .ok (.ok
      ⟨[⟨none, "hello".data, none, [],
          [⟨none, "scope".data, "world".data, none⟩], [], none⟩],
        [], [], [], [.elem 0]⟩) := by
  refine ⟨?_, fun α input f pt st => rfl, by decide, by decide⟩
  intro v st hne hv
  exact ⟨(parseAttributeQuoteSq v st hne hv).trans (parseAttributeQuoteDq v st hne hv).symm,
    parseAttributeQuoteSq v st hne hv⟩

/-- C6 witness: the general direction applied to the value world, for
both quote styles. -/
theorem c6_witness :
    parseAttribute (scopeAttrInput '\'' ("world".data)) 5 0 initialState =
      parseAttribute (scopeAttrInput '"' ("world".data)) 5 0 initialState :=
  (c6_quote_style_independence.1 ("world".data) initialState (by decide) (by decide)).1

/-- C4: equality of prefixed names is structural (same optional prefix and
same local part, with no namespace resolution); after a non-self-closing
element's content, an end tag whose name differs structurally from the
start tag's is the fatal mismatched-tags error, which aborts the whole
computation rather than becoming a recoverable failure offset, while an
equal name succeeds; concretely a document with mismatched tags aborts
fatally and the matched version parses. -/
theorem c4_end_tag_must_match :
    (∀ n1 n2 : PrefixedName, n1 = n2 ↔ (n1.pfx = n2.pfx ∧ n1.localPart = n2.localPart)) ∧
    (∀ (input : Str) (fuel : Nat) (startName : PrefixedName) (pt pt1 fp pt2 p3 : Nat)
      (st st2 : HState) (endName : PrefixedName),
      consumeLiteral input (">".data) pt = .success () pt1 →
      parseG input fuel .content pt1 st = .ok (.stalled () fp pt2, st2) →
      parseElementEnd input pt2 = .success endName p3 →
      (endName ≠ startName →
        parseG input (fuel + 1) (.nonEmptyTail startName) pt st = .error .mismatchedTags) ∧
      (endName = startName →
        parseG input (fuel + 1) (.nonEmptyTail startName) pt st = .ok (.success () p3, st2))) ∧
    parse ("<a></b>".data) = .error .mismatchedTags ∧
    parse ("<a></a>".data) =
      .ok (.ok ⟨[⟨none, "a".data, none, [], [], [], none⟩], [], [], [], [.elem 0]⟩) := by
  refine ⟨?_, ?_, by decide, by decide⟩
  · intro n1 n2; cases n1; cases n2; simp [PrefixedName.mk.injEq]
  · intro input fuel startName pt pt1 fp pt2 p3 st st2 endName h1 h2 h3
    constructor
    · intro hne
      simp only [parseG]
      rw [h1]
      simp only [tryPM]
      rw [h2]
      simp only [bindPartialM]
      rw [h3]
      simp only [resumeP]
      rw [if_neg (fun h => hne h.symm)]
    · intro heq
      simp only [parseG]
      rw [h1]
      simp only [tryPM]
      rw [h2]
      simp only [bindPartialM]
      rw [h3]
      simp only [resumeP]
      rw [if_pos heq.symm]

/-- C3: at attributes_end, a deferred attribute whose name has prefix
exactly "xmlns" is a namespace declaration — its local part becomes the
declared prefix and its reference-decoded concatenated value the URI,
registered on the element and not set as an attribute — while a bare
xmlns attribute with no prefix is not a declaration and is processed as
an ordinary attribute; concretely <hello xmlns:ns='uri'/> yields an
element with prefix mapping ns to uri and no attributes, and
<hello xmlns='uri'/> yields an element with no prefix mappings and an
ordinary attribute named xmlns. -/
theorem c3_xmlns_requires_pfx :
    (∀ (st : HState) (n l : Str) (vs : List AttributeValue) (u : Str),
      st.element = some ⟨none, n⟩ → st.stack = [] →
      st.attributes = [⟨⟨some ("xmlns".data), l⟩, vs⟩] →
      convertAttrValues vs = .ok u →
      attributesEndEvent st = .ok
        ⟨{ st.doc with
            elements := st.doc.elements ++ [⟨none, n, none, [(l, u)], [], [], none⟩],
            rootChildren := st.doc.rootChildren ++ [.elem st.doc.elements.length] },
          [st.doc.elements.length], none, []⟩) ∧
    (∀ (st : HState) (n : Str) (vs : List AttributeValue) (u : Str),
      st.element = some ⟨none, n⟩ → st.stack = [] →
      st.attributes = [⟨⟨none, "xmlns".data⟩, vs⟩] →
      convertAttrValues vs = .ok u →
      attributesEndEvent st = .ok
        ⟨{ st.doc with
            elements := st.doc.elements ++
              [⟨none, n, none, [], [⟨none, "xmlns".data, u, none⟩], [], none⟩],
            rootChildren := st.doc.rootChildren ++ [.elem st.doc.elements.length] },
          [st.doc.elements.length], none, []⟩) ∧
    parseStr "<hello xmlns:ns='uri'/>" = .ok (.ok
      ⟨[⟨none, "hello".data, none, [("ns".data, "uri".data)], [], [], none⟩],
        [], [], [], [.elem 0]⟩) ∧
    parseStr "<hello xmlns='uri'/>" = .ok (.ok
      ⟨[⟨none, "hello".data, none, [], [⟨none, "xmlns".data, "uri".data, none⟩], [], none⟩],
        [], [], [], [.elem 0]⟩) := by
  refine ⟨?_, ?_, by decide, by decide⟩
  · intro st n l vs u h1 h2 h3 h4
    obtain ⟨d, stk, el, attrs⟩ := st
    dsimp only at h1 h2 h3 ⊢
    subst h1; subst h2; subst h3
    simp +decide [attributesEndEvent, List.partition_eq_filter_filter, List.filter,
      buildMappings, h4, insertReplace, resolvePfx, assocLookup, createElement,
      finishElement, registerPfx, updElem, listUpd_concat, appendToEither,
      setOrdinaryAttrs]
  · intro st n vs u h1 h2 h3 h4
    obtain ⟨d, stk, el, attrs⟩ := st
    dsimp only at h1 h2 h3 ⊢
    subst h1; subst h2; subst h3
    simp +decide [attributesEndEvent, List.partition_eq_filter_filter, List.filter,
      buildMappings, h4, insertReplace, resolvePfx, assocLookup, createElement,
      finishElement, registerPfx, updElem, listUpd_concat, appendToEither,
      setOrdinaryAttrs, setAttributeOn, setAttrList]

/-- C3 witness: the declaration direction applied at a concrete staged
element carrying one xmlns:ns declaration. -/
theorem c3_witness :
    attributesEndEvent ⟨emptyDoc, [], some ⟨none, "hello".data⟩,
        [⟨⟨some ("xmlns".data), "ns".data⟩, [.literalAttributeValue ("uri".data)]⟩]⟩ =
      .ok ⟨⟨[⟨none, "hello".data, none, [("ns".data, "uri".data)], [], [], none⟩],
            [], [], [], [.elem 0]⟩, [0], none, []⟩ := by
  have h := c3_xmlns_requires_pfx.1
    ⟨emptyDoc, [], some ⟨none, "hello".data⟩,
      [⟨⟨some ("xmlns".data), "ns".data⟩, [.literalAttributeValue ("uri".data)]⟩]⟩
    ("hello".data) ("ns".data) [.literalAttributeValue ("uri".data)] ("uri".data)
    rfl rfl rfl (by decide)
  simpa using h

/-- C4 witness: the general mismatch direction applied at a concrete
content run and end tag named b against a start tag named a. -/
theorem c4_witness :
    parseG ("></b>".data) 6 (.nonEmptyTail ⟨none, "a".data⟩) 0 initialState =
      .error .mismatchedTags :=
  ((c4_end_tag_must_match.2.1 ("></b>".data) 5 ⟨none, "a".data⟩ 0 1 1 1 5
    initialState initialState ⟨none, "b".data⟩
    (by decide) (by decide) (by decide)).1 (by decide))

end Sxd
